import Mathlib

/-!
# Acquisition-to-spectrum pipeline of `User/main.c`

A shallow embedding of the numeric core of `src/User/main.c`:
`CopyDataToWaveBuff`, `FFT_Calc`, `HAL_ADC_ConvCpltCallback`,
`update_lvgl_charts`, `update_fft_chart` and, of the two configuration
callbacks `radio_event_handler` and `slider_event_cb`, their effect on the
display mode, the hidden flags and the point counts.

Modelling conventions.
* A C array is a map from index to value (`Nat → α`); a store is `store`.
* A `float` is the rational number it denotes.  The three computations whose
  rounding shows in what the pipeline publishes are evaluated in IEEE single
  precision (`roundF32`, round to nearest, ties to even): the normalisation
  of the samples, the frequency-to-bin expression and the display gain.  The
  other float expressions are exact over `ℚ`.  The C library `sqrtf` and the
  CMSIS transform `arm_rfft_fast_f32` are parameters of `FFT_Calc`.
  Overflow to infinity is not represented: where it matters a theorem assumes
  the operands finite (`FiniteF32`).
* `(int) x` on a float is truncation toward zero, `truncToInt`; C defines it
  only when the truncated value fits the 32-bit `int` (`FitsInt`), and a
  theorem that depends on the converted value assumes so.
* `int` / `int32_t` values are `Int`; `uint16_t` values are `Nat`, reduced
  modulo `2 ^ 16` where the source stores into a `uint16_t` variable.
* A `for` loop is `forLoop body lo n`, running `body` at `lo, lo+1, …, lo+n-1`.
-/

namespace FftDisplay

/-! ## Basic machinery -/

/-- The transform length, `#define NPT 1024` (main.c:25). -/
def NPT : Nat := 1024

/-- The C conversion `(int) x` of a float: truncation toward zero. -/
def truncToInt (x : ℚ) : Int := Int.tdiv x.num x.den

/-- Rounding of a rational to the nearest integer, ties to the even one. -/
def roundNearestEven (y : ℚ) : Int :=
  let f : Int := ⌊y⌋
  if y - f < 1 / 2 then f
  else if y - f > 1 / 2 then f + 1
  else if f % 2 = 0 then f else f + 1

/-- Rounding to IEEE single precision (24-bit significand, round to nearest,
ties to even, gradual underflow below `2^-126`): the result of a `float`
operation whose exact result is `x`. -/
def roundF32 (x : ℚ) : ℚ :=
  let e : Int := max (Int.log 2 |x|) (-126)
  let ulp : ℚ := (2 : ℚ) ^ (e - 23)
  (roundNearestEven (x / ulp) : ℚ) * ulp

/-- Array store `a[i] = v`. -/
def store {α : Type} (a : Nat → α) (i : Nat) (v : α) : Nat → α :=
  fun j => if j = i then v else a j

/-- A counted loop `for (i = lo; i < lo + n; i++) s = body i s`. -/
def forLoop {σ : Type} (body : Nat → σ → σ) : Nat → Nat → σ → σ
  | _, 0, s => s
  | lo, n + 1, s => forLoop body (lo + 1) n (body lo s)

/-! ## Global state (main.c:27-55, 70) -/

/-- The globals of `main.c` read or written by the pipeline, together with
the two chart series arrays and the hidden flags of the two chart objects. -/
structure State where
  /-- The array `uint16_t ADValue[NPT]`, filled by DMA. -/
  ADValue : Nat → Nat
  /-- The array `uint16_t copyADValue[NPT]`. -/
  copyADValue : Nat → Nat
  /-- The array `float fft_inputbuf[NPT]`. -/
  fft_inputbuf : Nat → ℚ
  /-- The array `float fft_outputbuf[NPT]`. -/
  fft_outputbuf : Nat → ℚ
  /-- The global `static float g_fft_low`. -/
  g_fft_low : ℚ
  /-- The global `static float g_fft_high`. -/
  g_fft_high : ℚ
  /-- The global `static int s_binStart`. -/
  s_binStart : Int
  /-- The global `static int s_binEnd`. -/
  s_binEnd : Int
  /-- The global `volatile float fft_max_val`. -/
  fft_max_val : ℚ
  /-- The global `volatile float fft_max_freq`. -/
  fft_max_freq : ℚ
  /-- The global `volatile uint8_t fft_ready`. -/
  fft_ready : Nat
  /-- The global `static int32_t wave_chart_low`. -/
  wave_chart_low : Int
  /-- The global `static int32_t wave_chart_high`. -/
  wave_chart_high : Int
  /-- The global `static uint16_t wave_points`. -/
  wave_points : Nat
  /-- The global `static uint16_t fft_points`. -/
  fft_points : Nat
  /-- The global `static uint8_t display_mode`. -/
  display_mode : Nat
  /-- The y array of the wave chart series. -/
  wave_arr : Nat → Int
  /-- The y array of the spectrum chart series. -/
  fft_arr : Nat → Int
  /-- The flag `LV_OBJ_FLAG_HIDDEN` of `wave_chart`. -/
  wave_hidden : Bool
  /-- The flag `LV_OBJ_FLAG_HIDDEN` of `fft_chart`. -/
  fft_hidden : Bool

/-- The initial values of the globals (main.c:27-55, 70; arrays are
zero-initialised, both charts are shown in mode 2, main.c:212-222). -/
def initState : State where
  ADValue := fun _ => 0
  copyADValue := fun _ => 0
  fft_inputbuf := fun _ => 0
  fft_outputbuf := fun _ => 0
  g_fft_low := 250
  g_fft_high := 650
  s_binStart := 0
  s_binEnd := 0
  fft_max_val := 0
  fft_max_freq := 0
  fft_ready := 0
  wave_chart_low := 600
  wave_chart_high := 1800
  wave_points := 250
  fft_points := 206
  display_mode := 2
  wave_arr := fun _ => 0
  fft_arr := fun _ => 0
  wave_hidden := false
  fft_hidden := false

/-! ## `FFT_Calc` (main.c:656-706) -/

/-- The float expression `sample * 3.3f / 4095.0f` of main.c:660 in single
precision: the constant `3.3f`, the product and the quotient are each
rounded. -/
def normSample (sample : Nat) : ℚ :=
  roundF32 (roundF32 ((sample : ℚ) * roundF32 (33 / 10)) / 4095)

/-- The input fill loop of `FFT_Calc` (main.c:658-662):
`fft_inputbuf[i] = copyADValue[i] * 3.3f / 4095.0f` for `i = 0 .. NPT-1`. -/
def fillInput (copyADValue : Nat → Nat) (fft_inputbuf : Nat → ℚ) : Nat → ℚ :=
  forLoop (fun i buf => store buf i (normSample (copyADValue i))) 0 NPT fft_inputbuf

/-- The in-place magnitude pass of `FFT_Calc` (main.c:666-677). -/
def magnitudePass (sqrtf : ℚ → ℚ) (fft_outputbuf : Nat → ℚ) : Nat → ℚ :=
  let out := store fft_outputbuf 0 |fft_outputbuf 0|
  let out := if NPT % 2 = 0 then store out (NPT / 2) |out 1| else out
  forLoop
    (fun i out =>
      let re := out (2 * i)
      let im := out (2 * i + 1)
      store out i (sqrtf (re * re + im * im)))
    1 (NPT / 2 - 1) out

/-- The float expression `freq * NPT / samp + 0.5f` of main.c:679-680 in
single precision: the product, the quotient and the sum are each rounded. -/
def binFloat (freq samp : ℚ) : ℚ :=
  roundF32 (roundF32 (roundF32 (freq * (NPT : ℚ)) / samp) + 1 / 2)

/-- The bin window computation of `FFT_Calc` (main.c:679-687): the pair
`(binStart, binEnd)` stored into `s_binStart`, `s_binEnd`. -/
def binWindow (g_fft_low g_fft_high samp : ℚ) : Int × Int :=
  let binStart : Int := truncToInt (binFloat g_fft_low samp)
  let binEnd : Int := truncToInt (binFloat g_fft_high samp)
  let binEnd : Int := if binEnd > ((NPT / 2 : Nat) : Int) then ((NPT / 2 : Nat) : Int) else binEnd
  let binStart : Int := if binStart < 0 then 0 else binStart
  if binStart > binEnd then (0, ((NPT / 2 : Nat) : Int)) else (binStart, binEnd)

/-- Modelled from the spec: `arm_max_f32` of CMSIS-DSP (declared in
`arm_math.h`, not among the sources) returns the maximum of the `blockSize`
values at `pSrc` and the first index attaining it.  The model is the scalar
reference loop: start from element 0 and replace the running maximum only on
a strictly larger element. -/
def arm_max_f32 (pSrc : Nat → ℚ) (blockSize : Nat) : ℚ × Nat :=
  forLoop
    (fun i (acc : ℚ × Nat) => if acc.1 < pSrc i then (pSrc i, i) else acc)
    1 (blockSize - 1) (pSrc 0, 0)

/-- The peak search of `FFT_Calc` (main.c:692-698): the pair
`(maxVal, maxIndex)`; `maxIndex` is a `uint32_t`. -/
def peakSearch (fft_outputbuf : Nat → ℚ) (binStart binEnd : Int) : ℚ × Nat :=
  let subLen : Int := binEnd - binStart + 1
  let subLen : Int := if subLen < 1 then 1 else subLen
  let r := arm_max_f32 (fun j => fft_outputbuf (binStart.toNat + j)) subLen.toNat
  let maxVal : ℚ := r.1
  let maxIndexLocal : Nat := r.2
  let maxIndex : Nat := ((binStart + (maxIndexLocal : Int)) % 2 ^ 32).toNat
  (maxVal, maxIndex)

/-- The function `FFT_Calc(samp)` (main.c:656-706).  `sqrtf` is the C library
square root and `arm_rfft_fast_f32` the CMSIS real FFT, which receives the
`NPT` input floats and yields the packed output buffer. -/
def FFT_Calc (sqrtf : ℚ → ℚ) (arm_rfft_fast_f32 : List ℚ → Nat → ℚ) (samp : ℚ)
    (st : State) : State :=
  let fft_inputbuf := fillInput st.copyADValue st.fft_inputbuf
  let fft_outputbuf := arm_rfft_fast_f32 ((List.range NPT).map fft_inputbuf)
  let fft_outputbuf := magnitudePass sqrtf fft_outputbuf
  let w := binWindow st.g_fft_low st.g_fft_high samp
  let binStart : Int := w.1
  let binEnd : Int := w.2
  let pk := peakSearch fft_outputbuf binStart binEnd
  let maxVal : ℚ := pk.1
  let maxIndex : Nat := pk.2
  { st with
    fft_inputbuf := fft_inputbuf
    fft_outputbuf := fft_outputbuf
    s_binStart := binStart
    s_binEnd := binEnd
    fft_max_val := maxVal
    fft_max_freq := samp * (maxIndex : ℚ) / (NPT : ℚ)
    fft_ready := 1 }

/-- The function `CopyDataToWaveBuff` (main.c:651-654): `memcpy` of the
`NPT` samples of `ADValue` into `copyADValue`. -/
def CopyDataToWaveBuff (st : State) : State :=
  { st with copyADValue := fun i => if i < NPT then st.ADValue i else st.copyADValue i }

/-- The capture-complete handler `HAL_ADC_ConvCpltCallback` (main.c:642-649);
`isADC1` is the test `hadc->Instance == ADC1` and `Samples` the global
sampling rate. -/
def HAL_ADC_ConvCpltCallback (sqrtf : ℚ → ℚ) (arm_rfft_fast_f32 : List ℚ → Nat → ℚ)
    (isADC1 : Bool) (Samples : ℚ) (st : State) : State :=
  if isADC1 then FFT_Calc sqrtf arm_rfft_fast_f32 Samples (CopyDataToWaveBuff st) else st

/-! ## The wave part of `update_lvgl_charts` (main.c:527-581)

The LVGL constant `LV_CHART_POINT_NONE` (the gap sentinel) is declared in
the LVGL headers; it is a parameter `NONE` of the definitions below. -/

/-- The constant `INT32_MAX`. -/
def INT32_MAX : Int := 2147483647

/-- The constant `INT32_MIN`. -/
def INT32_MIN : Int := -2147483648

/-- The wave fill loop (main.c:534-544). -/
def waveFill (NONE : Int) (wave_points : Nat) (copyADValue : Nat → Nat)
    (wave_arr : Nat → Int) : Nat → Int :=
  forLoop
    (fun i arr =>
      if (i : Int) < 3 ∨ (i : Int) ≥ (wave_points : Int) - 3 then store arr i NONE
      else store arr i ((copyADValue i : Nat) : Int))
    0 wave_points wave_arr

/-- One iteration of the min/max scan (main.c:552-556) on the pair
`(wave_min_i32, wave_max_i32)`. -/
def waveScanStep (NONE : Int) (wave_arr : Nat → Int) (i : Nat) (mm : Int × Int) : Int × Int :=
  if wave_arr i ≠ NONE then
    let mn := if wave_arr i < mm.1 then wave_arr i else mm.1
    let mx := if wave_arr i > mm.2 then wave_arr i else mm.2
    (mn, mx)
  else mm

/-- The min/max scan (main.c:547-557): `for (i = 3; i < wave_points - 3; i++)`
from `(INT32_MAX, INT32_MIN)`.  The result is `(wave_min_i32, wave_max_i32)`. -/
def waveScan (NONE : Int) (wave_points : Nat) (wave_arr : Nat → Int) : Int × Int :=
  forLoop (waveScanStep NONE wave_arr) 3 ((wave_points : Int) - 3 - 3).toNat
    (INT32_MAX, INT32_MIN)

/-- The fallback / padding / clamping of the scanned bounds (main.c:559-575):
the pair stored into `(wave_chart_low, wave_chart_high)`. -/
def waveRange (wave_min_i32 wave_max_i32 : Int) : Int × Int :=
  if wave_min_i32 ≥ wave_max_i32 then (0, 4095)
  else
    let mn := wave_min_i32 - 150
    let mx := wave_max_i32 + 100
    let mn := if mn < 0 then 0 else mn
    let mx := if mx > 4095 then 4095 else mx
    (mn, mx)

/-- The wave part (A) of `update_lvgl_charts` (main.c:528-581), run when the
wave chart is not hidden. -/
def updateWave (NONE : Int) (st : State) : State :=
  let wave_arr := waveFill NONE st.wave_points st.copyADValue st.wave_arr
  let mm := waveScan NONE st.wave_points wave_arr
  let r := waveRange mm.1 mm.2
  { st with wave_arr := wave_arr, wave_chart_low := r.1, wave_chart_high := r.2 }

/-! ## `update_fft_chart` (main.c:591-637) -/

/-- The value `real_bins` of `update_fft_chart` (main.c:596-600), a `uint16_t`. -/
def realBins (s_binStart s_binEnd : Int) : Nat :=
  let real_bins : Nat := ((s_binEnd - s_binStart + 1) % 65536).toNat
  if real_bins < 1 then 1 else real_bins

/-- The value `step` of `update_fft_chart` (main.c:602-603), a `uint16_t`. -/
def fftStep (s_binStart s_binEnd : Int) (point_count : Nat) : Nat :=
  let step : Nat := realBins s_binStart s_binEnd / point_count
  if step < 1 then 1 else step

/-- The bin read at interior position `i` (main.c:617-621): the `uint16_t`
variable `bin_index` after the comparison with `s_binEnd`. -/
def binIndex (s_binStart s_binEnd : Int) (step i : Nat) : Nat :=
  let bin_index : Int := (s_binStart + (i : Int) * (step : Int)) % 65536
  let bin_index : Int := if bin_index > s_binEnd then s_binEnd % 65536 else bin_index
  bin_index.toNat

/-- The display gain `scale_factor = 255.0f / 50.0f` of main.c:605, a single
precision quotient (it is 10695475 / 2097152, about 5.0999999). -/
def scaleFactor : ℚ := roundF32 (255 / 50)

/-- The function `update_fft_chart` (main.c:591-637) on the chart array; the
chart point count is the one last set on the chart, `fft_points`
(main.c:186, 460).  The product `fft_outputbuf[bin_index] * scale_factor` is a
single precision product. -/
def update_fft_chart (NONE : Int) (st : State) : State :=
  let point_count : Nat := st.fft_points
  let step : Nat := fftStep st.s_binStart st.s_binEnd point_count
  let scale_factor : ℚ := scaleFactor
  let arr :=
    forLoop
      (fun i arr =>
        let arr := store arr i (0 : Int)
        if (i : Int) < 3 ∨ (i : Int) ≥ (point_count : Int) - 3 then store arr i NONE
        else
          let bin_index : Nat := binIndex st.s_binStart st.s_binEnd step i
          let val_f : ℚ := roundF32 (st.fft_outputbuf bin_index * scale_factor)
          let val_f : ℚ := if val_f > 255 then 255 else val_f
          store arr i (truncToInt val_f))
      0 point_count st.fft_arr
  { st with fft_arr := arr }

/-- The timer callback `update_lvgl_charts` (main.c:523-589). -/
def update_lvgl_charts (NONE : Int) (st : State) : State :=
  let st := if !st.wave_hidden then updateWave NONE st else st
  if st.fft_ready ≠ 0 ∧ !st.fft_hidden then
    { update_fft_chart NONE st with fft_ready := 0 }
  else st

/-! ## The configuration callbacks (main.c:386-463) -/

/-- The mode selector callback `radio_event_handler` (main.c:386-427) on the
display mode and the hidden flags of the two charts.  `target` is `none` when
the clicked object is the container itself (`act_cb == cont`, an early
return) and `some index` when it is the check box of that child index. -/
def radio_event_handler (target : Option Nat) (st : State) : State :=
  match target with
  | none => st
  | some index =>
    let display_mode : Nat := index % 256
    if display_mode = 0 then
      { st with display_mode := display_mode, wave_hidden := true, fft_hidden := false }
    else if display_mode = 1 then
      { st with display_mode := display_mode, fft_hidden := true, wave_hidden := false }
    else
      { st with display_mode := display_mode, wave_hidden := false, fft_hidden := false }

/-- The slider callback `slider_event_cb` (main.c:429-463) on the two point
counts; `val` is the `int16_t` slider value.  The sums are computed in `int`
(division truncates toward zero) and stored into `uint16_t` variables. -/
def slider_event_cb (val : Int) (st : State) : State :=
  let newWavePoints : Nat := ((50 + Int.tdiv (200 * val) 100) % 65536).toNat
  let newWavePoints : Nat := if newWavePoints < 50 then 50 else newWavePoints
  let newWavePoints : Nat := if newWavePoints > 250 then 250 else newWavePoints
  let newFftPoints : Nat := ((110 + Int.tdiv (176 * val) 100) % 65536).toNat
  let newFftPoints : Nat := if newFftPoints < 110 then 110 else newFftPoints
  let newFftPoints : Nat := if newFftPoints > 206 then 206 else newFftPoints
  { st with wave_points := newWavePoints, fft_points := newFftPoints }

/-- The division `real_bins / point_count` of `update_fft_chart` (main.c:602)
with the division by zero made explicit: `none` when `point_count` is 0. -/
def fftStepChecked (s_binStart s_binEnd : Int) (point_count : Nat) : Option Nat :=
  if point_count = 0 then none else some (fftStep s_binStart s_binEnd point_count)

/-- The hidden flags of the two charts are the ones set for the display mode
(main.c:198-222 and 402-426): the wave chart is hidden exactly in mode 0
(FFT only), the spectrum chart exactly in mode 1 (Wave only). -/
def DisplayFlags (st : State) : Prop :=
  (st.wave_hidden = true ↔ st.display_mode = 0) ∧ (st.fft_hidden = true ↔ st.display_mode = 1)

/-! ## Spec-side formulas for the bin window -/

/-- The value `x` rounds to a finite `float`: it is below the midpoint
between `FLT_MAX` and `2^128`. -/
def FiniteF32 (x : ℚ) : Prop := |x| < 2 ^ 128 - 2 ^ 103

/-- The conversion `(int) x` is defined: the truncation of `x` fits the
32-bit `int`. -/
def FitsInt (x : ℚ) : Prop := -2147483649 < x ∧ x < 2147483648

/-- The C expression `(int)(freq * NPT / samp + 0.5f)` is defined and finite:
the product and the quotient do not overflow and the sum fits `int`. -/
def BinDefined (freq samp : ℚ) : Prop :=
  FiniteF32 (freq * (NPT : ℚ)) ∧ FiniteF32 (roundF32 (freq * (NPT : ℚ)) / samp) ∧
    FitsInt (binFloat freq samp)

/-- The peak bin index published by `FFT_Calc`: the local `maxIndex`
(main.c:698) as determined by the published spectrum and bin window. -/
def peakBinIndex (st : State) : Nat :=
  (peakSearch st.fft_outputbuf st.s_binStart st.s_binEnd).2

/-- A packed FFT output whose bin 256 has real part 3 (position 512) and
imaginary part 4 (position 513); every other coefficient is 0. -/
def packedBin256 : Nat → ℚ := fun i => if i = 512 then 3 else if i = 513 then 4 else 0

/-! ## Spec-side notions for the wave projection -/

/-- The spec phrase "min taken over the positions 3..pointCount-4": `m` is
attained at such a position and is a lower bound of all of them. -/
def IsWaveMin (pointCount : Nat) (snapshot : Nat → Nat) (m : Int) : Prop :=
  (∃ i, 3 ≤ i ∧ i + 4 ≤ pointCount ∧ (snapshot i : Int) = m) ∧
    ∀ i, 3 ≤ i → i + 4 ≤ pointCount → m ≤ (snapshot i : Int)

/-- The spec phrase "max taken over the positions 3..pointCount-4". -/
def IsWaveMax (pointCount : Nat) (snapshot : Nat → Nat) (M : Int) : Prop :=
  (∃ i, 3 ≤ i ∧ i + 4 ≤ pointCount ∧ (snapshot i : Int) = M) ∧
    ∀ i, 3 ≤ i → i + 4 ≤ pointCount → (snapshot i : Int) ≤ M

/-- The spec phrase "clamped to [0, 4095]". -/
def clampRaw (x : Int) : Int := max 0 (min x 4095)

/-- A snapshot with the 12-bit samples 1000 at position 3 and 3000 elsewhere. -/
def snapshotTwoLevel : Nat → Nat := fun i => if i = 3 then 1000 else 3000

/-! ## Spec-side formulas for the spectrum projection -/

/-- The spec formula `realBins = max(1, binEnd − binStart + 1)`. -/
def specRealBins (binStart binEnd : Int) : Int := max 1 (binEnd - binStart + 1)

/-- The spec formula `step = max(1, realBins / pointCount)` with integer floor
division. -/
def specStep (binStart binEnd : Int) (pointCount : Nat) : Int :=
  max 1 (specRealBins binStart binEnd / (pointCount : Int))

/-- The spec value of interior position `i`: the integer part of
`min(255, magnitude[min(binEnd, binStart + i*step)] * 255/50)`. -/
def specSample (magnitude : Nat → ℚ) (binStart binEnd : Int) (pointCount i : Nat) : Int :=
  ⌊min (255 : ℚ)
    (magnitude (min binEnd (binStart + (i : Int) * specStep binStart binEnd pointCount)).toNat *
      (255 / 50))⌋

/-! ## Spec-side notions for the round trip: the exact DFT and a sinusoid -/

/-- A snapshot sampling `2048 + 500 cos(2π · 500 · n / 2000)`: the sinusoid of
frequency 500 Hz at the sampling rate 2000 Hz, whose samples are the integers
`2548, 2048, 1548, 2048` repeated. -/
def quarterWave : Nat → Nat :=
  fun n => if n % 4 = 0 then 2548 else if n % 4 = 2 then 1548 else 2048

/-- The packed exact DFT of the `NPT` normalised samples of `quarterWave`
(normalised in single precision, `normSample`): the DC coefficient at
position 0, the real part of bin 256 at position 512, and 0 elsewhere. -/
def packedQuarterWave : Nat → ℚ :=
  fun i =>
    if i = 0 then 13844583 / 8192
    else if i = 512 then 3380025 / 16384
    else 0

/-- The real part of bin `k` in the packed real-FFT layout. -/
def packedRe (packed : Nat → ℚ) (k : Nat) : ℚ :=
  if k = 0 then packed 0 else if k = NPT / 2 then packed 1 else packed (2 * k)

/-- The imaginary part of bin `k` in the packed real-FFT layout. -/
def packedIm (packed : Nat → ℚ) (k : Nat) : ℚ :=
  if k = 0 ∨ k = NPT / 2 then 0 else packed (2 * k + 1)

/-- The spec phrase "the FFT taken as the exact length-N discrete Fourier
transform": for every bin `k ≤ N/2`, the packed coefficients of bin `k` are
the real and imaginary part of `∑ n < N, x[n] · exp(-2πi·k·n/N)`. -/
def IsExactRfft (x : List ℚ) (packed : Nat → ℚ) : Prop :=
  ∀ k, k ≤ NPT / 2 →
    ∑ n ∈ Finset.range NPT, ((x.getD n 0 : ℚ) : ℂ) *
        Complex.exp (-(2 * (Real.pi : ℂ) * Complex.I * (k : ℂ) * (n : ℂ) / ((NPT : ℕ) : ℂ))) =
      ((packedRe packed k : ℚ) : ℂ) + ((packedIm packed k : ℚ) : ℂ) * Complex.I

/-! ## States used in the theorems on the pipeline coordinator -/

/-- A Ready state holding an undrained previous result: a different snapshot,
spectrum, bin window and peak than the initial state, with `fft_ready` set. -/
def staleReadyState : State :=
  { initState with
    copyADValue := fun _ => 7
    fft_inputbuf := fun _ => 1
    fft_outputbuf := fun _ => 3
    s_binStart := 5
    s_binEnd := 9
    fft_max_val := 3
    fft_max_freq := 10
    fft_ready := 1 }

/-- The value stored at interior position `i`, with the product evaluated as
the code does, in single precision with the gain `255.0f / 50.0f`: the
integer part of `min(255, magnitude[min(binEnd, binStart + i*step)] ⊗ gain)`. -/
def specSampleF32 (magnitude : Nat → ℚ) (binStart binEnd : Int) (pointCount i : Nat) : Int :=
  ⌊min (255 : ℚ)
    (roundF32
      (magnitude (min binEnd (binStart + (i : Int) * specStep binStart binEnd pointCount)).toNat *
        scaleFactor))⌋

/-- A state whose published spectrum is the constant `918789 / 32768` (a
`float`, about 28.04) with the default bin window `[128, 333]` and 206
points. -/
def flatSpectrumState : State :=
  { initState with
    fft_outputbuf := fun _ => 918789 / 32768
    s_binStart := 128
    s_binEnd := 333 }

/-! ## Loop and truncation lemmas -/

theorem forLoop_succ_last {σ : Type} (body : Nat → σ → σ) (n : Nat) :
    ∀ (lo : Nat) (s : σ), forLoop body lo (n + 1) s = body (lo + n) (forLoop body lo n s) := by
  induction n with
  | zero => intro lo s; simp [forLoop]
  | succ k ih =>
    intro lo s
    have h := ih (lo + 1) (body lo s)
    have e : lo + 1 + k = lo + (k + 1) := by omega
    rw [e] at h
    exact h

theorem store_same {α : Type} (a : Nat → α) (i : Nat) (v : α) : store a i v i = v := by
  simp [store]

theorem store_other {α : Type} (a : Nat → α) (i j : Nat) (v : α) (h : j ≠ i) :
    store a i v j = a j := by
  simp [store, h]

theorem truncToInt_of_nonneg (x : ℚ) (h : 0 ≤ x) : truncToInt x = ⌊x⌋ := by
  unfold truncToInt
  rw [Int.tdiv_eq_ediv (Rat.num_nonneg.mpr h) (Int.natCast_nonneg _)]
  exact (Rat.floor_def' x).symm

theorem truncToInt_nonneg (x : ℚ) (h : 0 ≤ x) : 0 ≤ truncToInt x := by
  rw [truncToInt_of_nonneg x h]
  exact Int.floor_nonneg.mpr h

/-! ## Single precision rounding lemmas -/

theorem roundNearestEven_eq_of_near (y : ℚ) (m : Int) (h : |y - (m : ℚ)| < 1 / 2) :
    roundNearestEven y = m := by
  rw [abs_lt] at h
  obtain ⟨h1, h2⟩ := h
  unfold roundNearestEven
  simp only
  by_cases hge : (m : ℚ) ≤ y
  · have hf : ⌊y⌋ = m := by
      rw [Int.floor_eq_iff]
      constructor
      · exact hge
      · linarith
    rw [hf, if_pos (by linarith)]
  · have hf : ⌊y⌋ = m - 1 := by
      rw [Int.floor_eq_iff]
      push_cast
      constructor
      · linarith
      · linarith
    rw [hf]
    push_cast
    rw [if_neg (by linarith), if_pos (by linarith)]
    ring

theorem roundNearestEven_error (y : ℚ) : |((roundNearestEven y : Int) : ℚ) - y| ≤ 1 / 2 := by
  have h1 := Int.floor_le y
  have h2 := Int.lt_floor_add_one y
  unfold roundNearestEven
  simp only
  rw [abs_le]
  split_ifs with a b c
  · constructor <;> linarith
  · push_cast
    constructor <;> linarith
  · constructor <;> linarith
  · push_cast
    constructor <;> linarith

theorem roundNearestEven_nonneg (y : ℚ) (h : 0 ≤ y) : 0 ≤ roundNearestEven y := by
  have hf : (0 : Int) ≤ ⌊y⌋ := Int.floor_nonneg.mpr h
  unfold roundNearestEven
  simp only
  split_ifs <;> omega

/-- Evaluation of `roundF32` from a certificate: the binade `e` of `x` and
the integer `m` nearest to `x / 2^(e-23)`. -/
theorem roundF32_eq (x r : ℚ) (e m : Int) (he : -126 ≤ e)
    (h1 : (2 : ℚ) ^ e ≤ |x|) (h2 : |x| < (2 : ℚ) ^ (e + 1))
    (h3 : |x / (2 : ℚ) ^ (e - 23) - (m : ℚ)| < 1 / 2)
    (hr : r = (m : ℚ) * (2 : ℚ) ^ (e - 23)) : roundF32 x = r := by
  have hpos : (0 : ℚ) < |x| := lt_of_lt_of_le (by positivity) h1
  have hlog : Int.log 2 |x| = e := by
    have a1 : e ≤ Int.log 2 |x| := by
      have := (Int.zpow_le_iff_le_log (R := ℚ) (b := 2) (by norm_num) (x := e) hpos).mp
      apply this
      exact_mod_cast h1
    have a2 : Int.log 2 |x| < e + 1 := by
      have := (Int.lt_zpow_iff_log_lt (R := ℚ) (b := 2) (by norm_num) (x := e + 1) hpos).mp
      apply this
      exact_mod_cast h2
    omega
  unfold roundF32
  simp only
  rw [hlog, max_eq_left he, roundNearestEven_eq_of_near _ m h3, hr]

theorem roundF32_nonneg (x : ℚ) (h : 0 ≤ x) : 0 ≤ roundF32 x := by
  unfold roundF32
  simp only
  have hu : (0 : ℚ) < (2 : ℚ) ^ (max (Int.log 2 |x|) (-126) - 23) := by positivity
  have : 0 ≤ roundNearestEven (x / (2 : ℚ) ^ (max (Int.log 2 |x|) (-126) - 23)) :=
    roundNearestEven_nonneg _ (div_nonneg h hu.le)
  have h2 : (0 : ℚ) ≤ ((roundNearestEven
      (x / (2 : ℚ) ^ (max (Int.log 2 |x|) (-126) - 23)) : Int) : ℚ) := by exact_mod_cast this
  exact mul_nonneg h2 hu.le

/-- The rounding error of `roundF32`: half an ulp, which is at most
`|x| / 2^24` in the normal range and `2^-150` below it. -/
theorem roundF32_error (x : ℚ) :
    |roundF32 x - x| ≤ |x| / 2 ^ 24 + (2 : ℚ) ^ (-150 : Int) := by
  by_cases hx : x = 0
  · subst hx
    have : roundF32 0 = 0 := by
      unfold roundF32
      simp [roundNearestEven]
    rw [this]
    simp
    positivity
  have hpos : (0 : ℚ) < |x| := abs_pos.mpr hx
  have hlow : ((2 : ℕ) : ℚ) ^ Int.log 2 |x| ≤ |x| := Int.zpow_log_le_self (by norm_num) hpos
  have hlow2 : (2 : ℚ) ^ Int.log 2 |x| ≤ |x| := by exact_mod_cast hlow
  unfold roundF32
  simp only
  generalize hE : max (Int.log 2 |x|) (-126) = E
  have hu : (0 : ℚ) < (2 : ℚ) ^ (E - 23) := by positivity
  have herr := roundNearestEven_error (x / (2 : ℚ) ^ (E - 23))
  have e1 : ((roundNearestEven (x / (2 : ℚ) ^ (E - 23)) : Int) : ℚ) * (2 : ℚ) ^ (E - 23) - x =
      (((roundNearestEven (x / (2 : ℚ) ^ (E - 23)) : Int) : ℚ) - x / (2 : ℚ) ^ (E - 23)) *
        (2 : ℚ) ^ (E - 23) := by
    field_simp
  rw [e1, abs_mul, abs_of_pos hu]
  have e2 : |((roundNearestEven (x / (2 : ℚ) ^ (E - 23)) : Int) : ℚ) - x / (2 : ℚ) ^ (E - 23)| *
      (2 : ℚ) ^ (E - 23) ≤ 1 / 2 * (2 : ℚ) ^ (E - 23) :=
    mul_le_mul_of_nonneg_right herr hu.le
  have e3 : (1 / 2 : ℚ) * (2 : ℚ) ^ (E - 23) = (2 : ℚ) ^ E / 2 ^ 24 := by
    rw [zpow_sub₀ (by norm_num : (2 : ℚ) ≠ 0)]
    norm_num
    ring
  have e4 : (2 : ℚ) ^ E ≤ |x| + (2 : ℚ) ^ (-126 : Int) := by
    rcases max_cases (Int.log 2 |x|) (-126) with ⟨hm, _⟩ | ⟨hm, _⟩
    · rw [← hE, hm]
      have : (0 : ℚ) < (2 : ℚ) ^ (-126 : Int) := by positivity
      linarith
    · rw [← hE, hm]
      linarith
  have e5 : (2 : ℚ) ^ E / 2 ^ 24 ≤ |x| / 2 ^ 24 + (2 : ℚ) ^ (-150 : Int) := by
    have : ((2 : ℚ) ^ (-126 : Int)) / 2 ^ 24 = (2 : ℚ) ^ (-150 : Int) := by norm_num
    rw [← this, ← add_div]
    exact div_le_div_of_nonneg_right e4 (by positivity)
  calc _ ≤ 1 / 2 * (2 : ℚ) ^ (E - 23) := e2
    _ = (2 : ℚ) ^ E / 2 ^ 24 := e3
    _ ≤ _ := e5

/-- Evaluation of `roundF32` at a positive value from a certificate. -/
theorem roundF32_eq_pos (x r : ℚ) (e m : Int) (he : -126 ≤ e)
    (h1 : (2 : ℚ) ^ e ≤ x) (h2 : x < (2 : ℚ) ^ (e + 1))
    (h3 : |x / (2 : ℚ) ^ (e - 23) - (m : ℚ)| < 1 / 2)
    (hr : r = (m : ℚ) * (2 : ℚ) ^ (e - 23)) : roundF32 x = r := by
  have hpos : (0 : ℚ) < x := lt_of_lt_of_le (by positivity) h1
  apply roundF32_eq x r e m he _ _ h3 hr
  · rw [abs_of_pos hpos]
    exact h1
  · rw [abs_of_pos hpos]
    exact h2

theorem roundF32_le (x : ℚ) (h : 0 ≤ x) :
    roundF32 x ≤ x * (1 + 1 / 2 ^ 24) + (2 : ℚ) ^ (-150 : Int) := by
  have := roundF32_error x
  rw [abs_of_nonneg h, abs_le] at this
  linarith [this.2]

theorem roundF32_ge (x : ℚ) (h : 0 ≤ x) :
    x * (1 - 1 / 2 ^ 24) - (2 : ℚ) ^ (-150 : Int) ≤ roundF32 x := by
  have := roundF32_error x
  rw [abs_of_nonneg h, abs_le] at this
  linarith [this.1]

/-- Evaluation of `binFloat` from the values of its three roundings. -/
theorem binFloat_eval (freq samp a b c : ℚ) (h1 : roundF32 (freq * 1024) = a)
    (h2 : roundF32 (a / samp) = b) (h3 : roundF32 (b + 1 / 2) = c) :
    binFloat freq samp = c := by
  unfold binFloat
  simp only [NPT, Nat.cast_ofNat]
  rw [h1, h2, h3]

/-- The three roundings of `binFloat` are at finite values and the result
fits `int`, from the values of the roundings. -/
theorem binDefined_eval (freq samp a b c : ℚ) (h1 : roundF32 (freq * 1024) = a)
    (h2 : roundF32 (a / samp) = b) (h3 : roundF32 (b + 1 / 2) = c)
    (f1 : |freq * 1024| < 2 ^ 128 - 2 ^ 103) (f2 : |a / samp| < 2 ^ 128 - 2 ^ 103)
    (f3 : -2147483649 < c ∧ c < 2147483648) : BinDefined freq samp := by
  unfold BinDefined FiniteF32 FitsInt
  rw [binFloat_eval freq samp a b c h1 h2 h3]
  simp only [NPT, Nat.cast_ofNat]
  rw [h1]
  exact ⟨f1, f2, f3⟩

theorem binFloat_250_2000 : binFloat 250 2000 = 257 / 2 := by
  apply binFloat_eval 250 2000 256000 128 (257 / 2)
  · apply roundF32_eq_pos _ _ 17 16384000 <;> norm_num [abs_lt]
  · apply roundF32_eq_pos _ _ 7 8388608 <;> norm_num [abs_lt]
  · apply roundF32_eq_pos _ _ 7 8421376 <;> norm_num [abs_lt]

theorem binFloat_650_2000 : binFloat 650 2000 = 5460787 / 16384 := by
  apply binFloat_eval 650 2000 665600 (5452595 / 16384) (5460787 / 16384)
  · apply roundF32_eq_pos _ _ 19 10649600 <;> norm_num [abs_lt]
  · apply roundF32_eq_pos _ _ 8 10905190 <;> norm_num [abs_lt]
  · apply roundF32_eq_pos _ _ 8 10921574 <;> norm_num [abs_lt]

theorem binDefined_250_2000 : BinDefined 250 2000 := by
  apply binDefined_eval 250 2000 256000 128 (257 / 2)
  · apply roundF32_eq_pos _ _ 17 16384000 <;> norm_num [abs_lt]
  · apply roundF32_eq_pos _ _ 7 8388608 <;> norm_num [abs_lt]
  · apply roundF32_eq_pos _ _ 7 8421376 <;> norm_num [abs_lt]
  · norm_num [abs_lt]
  · norm_num [abs_lt]
  · norm_num

theorem binDefined_650_2000 : BinDefined 650 2000 := by
  apply binDefined_eval 650 2000 665600 (5452595 / 16384) (5460787 / 16384)
  · apply roundF32_eq_pos _ _ 19 10649600 <;> norm_num [abs_lt]
  · apply roundF32_eq_pos _ _ 8 10905190 <;> norm_num [abs_lt]
  · apply roundF32_eq_pos _ _ 8 10921574 <;> norm_num [abs_lt]
  · norm_num [abs_lt]
  · norm_num [abs_lt]
  · norm_num

/-- The published window at 2000 Hz for the default window `[250, 650]`. -/
theorem binWindow_default : binWindow 250 650 2000 = (128, 333) := by
  unfold binWindow
  rw [binFloat_250_2000, binFloat_650_2000]
  norm_num [truncToInt, NPT]
  decide

/-- The bin window computed by `FFT_Calc` always satisfies
`0 ≤ binStart ≤ binEnd ≤ NPT / 2`. -/
theorem binWindow_bounds (low high samp : ℚ) :
    0 ≤ (binWindow low high samp).1 ∧
      (binWindow low high samp).1 ≤ (binWindow low high samp).2 ∧
      (binWindow low high samp).2 ≤ ((NPT / 2 : Nat) : Int) := by
  unfold binWindow
  simp only [NPT]
  generalize truncToInt (low * ((1024 : Nat) : ℚ) / samp + 1 / 2) = a
  generalize truncToInt (high * ((1024 : Nat) : ℚ) / samp + 1 / 2) = b
  norm_num
  split_ifs <;> simp <;> omega

theorem FFT_Calc_s_binStart (sqrtf : ℚ → ℚ) (rfft : List ℚ → Nat → ℚ) (samp : ℚ)
    (st : State) :
    (FFT_Calc sqrtf rfft samp st).s_binStart = (binWindow st.g_fft_low st.g_fft_high samp).1 := by
  simp only [FFT_Calc]

theorem FFT_Calc_s_binEnd (sqrtf : ℚ → ℚ) (rfft : List ℚ → Nat → ℚ) (samp : ℚ)
    (st : State) :
    (FFT_Calc sqrtf rfft samp st).s_binEnd = (binWindow st.g_fft_low st.g_fft_high samp).2 := by
  simp only [FFT_Calc]

/-! ## The bin window (C4, C5, C6) -/

/-- C4. Initially and after every call of `FFT_Calc`, for every frequency
window and every positive sampling rate, the published bin window satisfies
`0 ≤ s_binStart ≤ s_binEnd ≤ NPT / 2`. -/
theorem FFT_Calc_binWindow_invariant (sqrtf : ℚ → ℚ) (rfft : List ℚ → Nat → ℚ)
    (samp : ℚ) (st : State) (_hs : 0 < samp) :
    (0 ≤ initState.s_binStart ∧ initState.s_binStart ≤ initState.s_binEnd ∧
        initState.s_binEnd ≤ ((NPT / 2 : Nat) : Int)) ∧
      (0 ≤ (FFT_Calc sqrtf rfft samp st).s_binStart ∧
        (FFT_Calc sqrtf rfft samp st).s_binStart ≤ (FFT_Calc sqrtf rfft samp st).s_binEnd ∧
        (FFT_Calc sqrtf rfft samp st).s_binEnd ≤ ((NPT / 2 : Nat) : Int)) := by
  refine ⟨by simp [initState, NPT], ?_⟩
  rw [FFT_Calc_s_binStart, FFT_Calc_s_binEnd]
  exact binWindow_bounds st.g_fft_low st.g_fft_high samp

/-- Witness of C4: the sampling rate 2000 Hz and an inverted, out-of-range
window `[5000, -3]`. -/
theorem FFT_Calc_binWindow_invariant_witness :
    (0 : ℚ) < 2000 ∧
    ((0 ≤ initState.s_binStart ∧ initState.s_binStart ≤ initState.s_binEnd ∧
        initState.s_binEnd ≤ ((NPT / 2 : Nat) : Int)) ∧
      (0 ≤ (FFT_Calc (fun x => x) (fun _ _ => 0) 2000
              { initState with g_fft_low := 5000, g_fft_high := -3 }).s_binStart ∧
        (FFT_Calc (fun x => x) (fun _ _ => 0) 2000
              { initState with g_fft_low := 5000, g_fft_high := -3 }).s_binStart ≤
          (FFT_Calc (fun x => x) (fun _ _ => 0) 2000
              { initState with g_fft_low := 5000, g_fft_high := -3 }).s_binEnd ∧
        (FFT_Calc (fun x => x) (fun _ _ => 0) 2000
              { initState with g_fft_low := 5000, g_fft_high := -3 }).s_binEnd ≤
          ((NPT / 2 : Nat) : Int))) :=
  ⟨by norm_num, FFT_Calc_binWindow_invariant _ _ 2000 _ (by norm_num)⟩

/-- Counterexample to C5 as stated: at 2000 Hz the inverted window
`[250.5, 250]` rounds to the single bin 128, and `FFT_Calc` publishes
`[128, 128]`, not `[0, 512]`. -/
theorem FFT_Calc_inverted_window_counterexample :
    (0 : ℚ) < 2000 ∧
    ({ initState with g_fft_low := 501 / 2, g_fft_high := 250 } : State).g_fft_low >
      ({ initState with g_fft_low := 501 / 2, g_fft_high := 250 } : State).g_fft_high ∧
    (FFT_Calc (fun x => x) (fun _ _ => 0) 2000
        { initState with g_fft_low := 501 / 2, g_fft_high := 250 }).s_binStart = 128 ∧
    (FFT_Calc (fun x => x) (fun _ _ => 0) 2000
        { initState with g_fft_low := 501 / 2, g_fft_high := 250 }).s_binEnd = 128 := by
  have hl : binFloat (501 / 2) 2000 = 8438153 / 65536 := by
    apply binFloat_eval (501 / 2) 2000 256512 (8405385 / 65536) (8438153 / 65536)
    · apply roundF32_eq_pos _ _ 17 16416768 <;> norm_num [abs_lt]
    · apply roundF32_eq_pos _ _ 7 8405385 <;> norm_num [abs_lt]
    · apply roundF32_eq_pos _ _ 7 8438153 <;> norm_num [abs_lt]
  have h : binWindow (501 / 2) 250 2000 = (128, 128) := by
    unfold binWindow
    rw [hl, binFloat_250_2000]
    norm_num [truncToInt, NPT]
    decide
  refine ⟨by norm_num, by norm_num, ?_, ?_⟩
  · rw [FFT_Calc_s_binStart]
    show (binWindow (501 / 2) 250 2000).1 = 128
    rw [h]
  · rw [FFT_Calc_s_binEnd]
    show (binWindow (501 / 2) 250 2000).2 = 128
    rw [h]

/-- The single precision value converted to the start bin is at least one
above the one converted to the end bin, or at least 513, when the window is
inverted by 1025/1024 of a bin width. -/
theorem binFloat_inverted (low high samp : ℚ) (hs : 1 ≤ samp) (hhigh : 0 ≤ high)
    (hinv : high + 1025 / 1024 * (samp / (NPT : ℚ)) ≤ low) :
    0 ≤ binFloat high samp ∧
      (binFloat high samp + 1 ≤ binFloat low samp ∨ 513 ≤ binFloat low samp) := by
  have hs0 : (0 : ℚ) < samp := by linarith
  simp only [NPT, Nat.cast_ofNat] at hinv
  have hlow : 0 ≤ low := by
    have : 0 ≤ samp / 1024 := by positivity
    linarith
  unfold binFloat
  simp only [NPT, Nat.cast_ofNat]
  generalize hμ : (2 : ℚ) ^ (-150 : Int) = μ
  have hμ0 : 0 < μ := by rw [← hμ]; positivity
  have hμ1 : μ ≤ 1 / 1000000000 := by rw [← hμ]; norm_num
  -- the end bin: upper bounds
  have hH0 : 0 ≤ high * 1024 := by positivity
  have hH1 := roundF32_le (high * 1024) hH0
  have hH1n := roundF32_nonneg (high * 1024) hH0
  rw [hμ] at hH1
  have hqH0 : 0 ≤ roundF32 (high * 1024) / samp := div_nonneg hH1n hs0.le
  have hqH : roundF32 (high * 1024) / samp ≤
      high * 1024 / samp * (1 + 1 / 2 ^ 24) + μ := by
    rw [div_le_iff₀ hs0]
    have e : (high * 1024 / samp * (1 + 1 / 2 ^ 24) + μ) * samp =
        high * 1024 * (1 + 1 / 2 ^ 24) + μ * samp := by
      field_simp
      ring
    rw [e]
    have : μ ≤ μ * samp := by nlinarith
    linarith
  have hH2 := roundF32_le _ hqH0
  have hH2n := roundF32_nonneg _ hqH0
  rw [hμ] at hH2
  have hH3 := roundF32_le (roundF32 (roundF32 (high * 1024) / samp) + 1 / 2) (by linarith)
  have hH3n := roundF32_nonneg (roundF32 (roundF32 (high * 1024) / samp) + 1 / 2) (by linarith)
  rw [hμ] at hH3
  -- the start bin: lower bounds
  have hL0 : 0 ≤ low * 1024 := by positivity
  have hL1 := roundF32_ge (low * 1024) hL0
  have hL1n := roundF32_nonneg (low * 1024) hL0
  rw [hμ] at hL1
  have hqL0 : 0 ≤ roundF32 (low * 1024) / samp := div_nonneg hL1n hs0.le
  have hqL : low * 1024 / samp * (1 - 1 / 2 ^ 24) - μ ≤ roundF32 (low * 1024) / samp := by
    rw [le_div_iff₀ hs0]
    have e : (low * 1024 / samp * (1 - 1 / 2 ^ 24) - μ) * samp =
        low * 1024 * (1 - 1 / 2 ^ 24) - μ * samp := by
      field_simp
      ring
    rw [e]
    have : μ ≤ μ * samp := by nlinarith
    linarith
  have hL2 := roundF32_ge _ hqL0
  have hL2n := roundF32_nonneg _ hqL0
  rw [hμ] at hL2
  have hL3 := roundF32_ge (roundF32 (roundF32 (low * 1024) / samp) + 1 / 2) (by linarith)
  rw [hμ] at hL3
  -- the exact bins
  have hx : high * 1024 / samp + 1025 / 1024 ≤ low * 1024 / samp := by
    rw [le_div_iff₀ hs0]
    have e : (high * 1024 / samp + 1025 / 1024) * samp = high * 1024 + 1025 / 1024 * samp := by
      field_simp
      ring
    rw [e]
    linarith
  have hxH0 : 0 ≤ high * 1024 / samp := by positivity
  generalize roundF32 (roundF32 (roundF32 (high * 1024) / samp) + 1 / 2) = TH at hH3 hH3n ⊢
  generalize roundF32 (roundF32 (roundF32 (low * 1024) / samp) + 1 / 2) = TL at hL3 ⊢
  generalize roundF32 (roundF32 (high * 1024) / samp) = aH at hH2 hH2n hH3
  generalize roundF32 (roundF32 (low * 1024) / samp) = aL at hL2 hL2n hL3
  generalize roundF32 (high * 1024) / samp = qH at hqH hqH0 hH2
  generalize roundF32 (low * 1024) / samp = qL at hqL hqL0 hL2
  generalize high * 1024 / samp = xH at hqH hx hxH0
  generalize low * 1024 / samp = xL at hqL hx
  refine ⟨hH3n, ?_⟩
  by_cases hbig : 600 ≤ xL
  · right
    norm_num at hL2 hL3 hqL
    linarith
  · left
    norm_num at hH2 hH3 hqH hL2 hL3 hqL
    linarith

/-- C5 (amended). For every sampling rate of at least 1 Hz and every
frequency window with `0 ≤ highFreqHz` that is inverted by at least 1025/1024
of a bin width, `highFreqHz + (1025/1024) * samplingRateHz / N ≤ lowFreqHz`,
and for which the two bin expressions are defined (finite, within `int`), the
bin window published by `FFT_Calc` is exactly `[0, N/2]`. -/
theorem FFT_Calc_inverted_window (sqrtf : ℚ → ℚ) (rfft : List ℚ → Nat → ℚ)
    (samp : ℚ) (st : State) (hs : 1 ≤ samp) (hhigh : 0 ≤ st.g_fft_high)
    (hinv : st.g_fft_high + 1025 / 1024 * (samp / (NPT : ℚ)) ≤ st.g_fft_low)
    (_hdl : BinDefined st.g_fft_low samp) (_hdh : BinDefined st.g_fft_high samp) :
    (FFT_Calc sqrtf rfft samp st).s_binStart = 0 ∧
      (FFT_Calc sqrtf rfft samp st).s_binEnd = ((NPT / 2 : Nat) : Int) := by
  obtain ⟨hT0, hT⟩ := binFloat_inverted st.g_fft_low st.g_fft_high samp hs hhigh hinv
  have hTL0 : 0 ≤ binFloat st.g_fft_low samp := by
    rcases hT with h | h <;> linarith
  have hb : 0 ≤ truncToInt (binFloat st.g_fft_high samp) := truncToInt_nonneg _ hT0
  have hab : truncToInt (binFloat st.g_fft_high samp) + 1 ≤
        truncToInt (binFloat st.g_fft_low samp) ∨
      513 ≤ truncToInt (binFloat st.g_fft_low samp) := by
    rw [truncToInt_of_nonneg _ hT0, truncToInt_of_nonneg _ hTL0]
    rcases hT with h | h
    · left
      rw [← Int.floor_add_one]
      exact Int.floor_le_floor h
    · right
      exact Int.le_floor.mpr (by exact_mod_cast h)
  have hw : binWindow st.g_fft_low st.g_fft_high samp = (0, ((NPT / 2 : Nat) : Int)) := by
    unfold binWindow
    revert hb hab
    generalize truncToInt (binFloat st.g_fft_low samp) = a
    generalize truncToInt (binFloat st.g_fft_high samp) = b
    intro hb hab
    simp only [NPT]
    norm_num
    intro h
    exfalso
    split_ifs at h <;> omega
  rw [FFT_Calc_s_binStart, FFT_Calc_s_binEnd, hw]
  exact ⟨rfl, rfl⟩

/-- Witness of C5 (amended): 2000 Hz and the inverted window `[650, 250]`. -/
theorem FFT_Calc_inverted_window_witness :
    (1 : ℚ) ≤ 2000 ∧
    BinDefined ({ initState with g_fft_low := 650, g_fft_high := 250 } : State).g_fft_low 2000 ∧
    BinDefined ({ initState with g_fft_low := 650, g_fft_high := 250 } : State).g_fft_high 2000 ∧
    (FFT_Calc (fun x => x) (fun _ _ => 0) 2000
        { initState with g_fft_low := 650, g_fft_high := 250 }).s_binStart = 0 ∧
    (FFT_Calc (fun x => x) (fun _ _ => 0) 2000
        { initState with g_fft_low := 650, g_fft_high := 250 }).s_binEnd =
      ((NPT / 2 : Nat) : Int) :=
  ⟨by norm_num, binDefined_650_2000, binDefined_250_2000,
    FFT_Calc_inverted_window _ _ 2000 { initState with g_fft_low := 650, g_fft_high := 250 }
      (by norm_num) (by norm_num) (by norm_num [NPT]) binDefined_650_2000 binDefined_250_2000⟩

theorem arm_max_loop (src : Nat → ℚ) (n : Nat) :
    (forLoop (fun i (acc : ℚ × Nat) => if acc.1 < src i then (src i, i) else acc)
        1 n (src 0, 0)).2 ≤ n ∧
    (forLoop (fun i (acc : ℚ × Nat) => if acc.1 < src i then (src i, i) else acc)
        1 n (src 0, 0)).1 =
      src (forLoop (fun i (acc : ℚ × Nat) => if acc.1 < src i then (src i, i) else acc)
        1 n (src 0, 0)).2 ∧
    (∀ j, j ≤ n → src j ≤
      (forLoop (fun i (acc : ℚ × Nat) => if acc.1 < src i then (src i, i) else acc)
        1 n (src 0, 0)).1) ∧
    (∀ j, j < (forLoop (fun i (acc : ℚ × Nat) => if acc.1 < src i then (src i, i) else acc)
        1 n (src 0, 0)).2 → src j <
      (forLoop (fun i (acc : ℚ × Nat) => if acc.1 < src i then (src i, i) else acc)
        1 n (src 0, 0)).1) := by
  induction n with
  | zero =>
    simp only [forLoop]
    refine ⟨le_refl _, trivial, ?_, ?_⟩
    · intro j hj
      have : j = 0 := by omega
      subst this
      exact le_refl _
    · intro j hj
      omega
  | succ k ih =>
    rw [forLoop_succ_last]
    generalize forLoop (fun i (acc : ℚ × Nat) => if acc.1 < src i then (src i, i) else acc)
        1 k (src 0, 0) = r at ih ⊢
    obtain ⟨h1, h2, h3, h4⟩ := ih
    by_cases hlt : r.1 < src (1 + k)
    · simp only [hlt, if_true]
      refine ⟨by omega, trivial, ?_, ?_⟩
      · intro j hj
        by_cases hjk : j ≤ k
        · exact le_of_lt (lt_of_le_of_lt (h3 j hjk) hlt)
        · have : j = 1 + k := by omega
          subst this
          exact le_refl _
      · intro j hj
        exact lt_of_le_of_lt (h3 j (by omega)) hlt
    · simp only [hlt, if_false]
      refine ⟨by omega, h2, ?_, h4⟩
      intro j hj
      by_cases hjk : j ≤ k
      · exact h3 j hjk
      · have : j = 1 + k := by omega
        subst this
        exact not_lt.mp hlt

/-- The model of `arm_max_f32` returns the maximum of the block and the first
index attaining it. -/
theorem arm_max_f32_spec (src : Nat → ℚ) (blockSize : Nat) (hb : 1 ≤ blockSize) :
    (arm_max_f32 src blockSize).2 < blockSize ∧
    (arm_max_f32 src blockSize).1 = src (arm_max_f32 src blockSize).2 ∧
    (∀ j, j < blockSize → src j ≤ (arm_max_f32 src blockSize).1) ∧
    (∀ j, j < (arm_max_f32 src blockSize).2 → src j < (arm_max_f32 src blockSize).1) := by
  obtain ⟨h1, h2, h3, h4⟩ := arm_max_loop src (blockSize - 1)
  unfold arm_max_f32
  refine ⟨by omega, h2, ?_, h4⟩
  intro j hj
  exact h3 j (by omega)

/-- The peak search inside a well-formed window: the returned index lies in
the window, carries the returned value, which is the maximum over the window,
and no earlier bin of the window attains it. -/
theorem peakSearch_spec (buf : Nat → ℚ) (bs be : Int) (h0 : 0 ≤ bs) (h1 : bs ≤ be)
    (h2 : be ≤ ((NPT / 2 : Nat) : Int)) :
    (bs ≤ ((peakSearch buf bs be).2 : Int) ∧ ((peakSearch buf bs be).2 : Int) ≤ be) ∧
    (peakSearch buf bs be).1 = buf (peakSearch buf bs be).2 ∧
    (∀ j : Nat, bs ≤ (j : Int) → (j : Int) ≤ be → buf j ≤ buf (peakSearch buf bs be).2) ∧
    (∀ j : Nat, bs ≤ (j : Int) → j < (peakSearch buf bs be).2 →
      buf j < buf (peakSearch buf bs be).2) := by
  have hsub : (if be - bs + 1 < 1 then (1 : Int) else be - bs + 1) = be - bs + 1 := by
    rw [if_neg]; omega
  have hlen : 1 ≤ (be - bs + 1).toNat := by omega
  obtain ⟨a1, a2, a3, a4⟩ := arm_max_f32_spec (fun j => buf (bs.toNat + j)) (be - bs + 1).toNat hlen
  have hidx : (peakSearch buf bs be).2 =
      bs.toNat + (arm_max_f32 (fun j => buf (bs.toNat + j)) (be - bs + 1).toNat).2 := by
    unfold peakSearch
    simp only [hsub]
    simp only [NPT] at h2
    omega
  have hval : (peakSearch buf bs be).1 =
      (arm_max_f32 (fun j => buf (bs.toNat + j)) (be - bs + 1).toNat).1 := by
    unfold peakSearch
    simp only [hsub]
  rw [hidx, hval]
  generalize arm_max_f32 (fun j => buf (bs.toNat + j)) (be - bs + 1).toNat = r at a1 a2 a3 a4
  refine ⟨⟨by omega, by omega⟩, a2, ?_, ?_⟩
  · intro j hj1 hj2
    have := a3 (j - bs.toNat) (by omega)
    simp only at this a2
    rw [← a2]
    have e : bs.toNat + (j - bs.toNat) = j := by omega
    rw [e] at this
    exact this
  · intro j hj1 hj2
    have := a4 (j - bs.toNat) (by omega)
    simp only at this a2
    rw [← a2]
    have e : bs.toNat + (j - bs.toNat) = j := by omega
    rw [e] at this
    exact this

theorem FFT_Calc_fft_outputbuf (sqrtf : ℚ → ℚ) (rfft : List ℚ → Nat → ℚ) (samp : ℚ)
    (st : State) :
    (FFT_Calc sqrtf rfft samp st).fft_outputbuf =
      magnitudePass sqrtf
        (rfft ((List.range NPT).map (fillInput st.copyADValue st.fft_inputbuf))) := by
  simp only [FFT_Calc]

theorem FFT_Calc_fft_max_val (sqrtf : ℚ → ℚ) (rfft : List ℚ → Nat → ℚ) (samp : ℚ)
    (st : State) :
    (FFT_Calc sqrtf rfft samp st).fft_max_val =
      (peakSearch (FFT_Calc sqrtf rfft samp st).fft_outputbuf
        (FFT_Calc sqrtf rfft samp st).s_binStart (FFT_Calc sqrtf rfft samp st).s_binEnd).1 := by
  simp only [FFT_Calc]

theorem FFT_Calc_fft_max_freq (sqrtf : ℚ → ℚ) (rfft : List ℚ → Nat → ℚ) (samp : ℚ)
    (st : State) :
    (FFT_Calc sqrtf rfft samp st).fft_max_freq =
      samp * ((peakBinIndex (FFT_Calc sqrtf rfft samp st) : Nat) : ℚ) / (NPT : ℚ) := by
  simp only [FFT_Calc, peakBinIndex]

theorem FFT_Calc_fft_ready (sqrtf : ℚ → ℚ) (rfft : List ℚ → Nat → ℚ) (samp : ℚ)
    (st : State) : (FFT_Calc sqrtf rfft samp st).fft_ready = 1 := by
  simp only [FFT_Calc]

theorem magnitude_loop (sqrtf : ℚ → ℚ) (out0 : Nat → ℚ) (n : Nat) :
    ∀ j : Nat,
      forLoop
        (fun i (out : Nat → ℚ) =>
          let re := out (2 * i)
          let im := out (2 * i + 1)
          store out i (sqrtf (re * re + im * im)))
        1 n out0 j =
      if 1 ≤ j ∧ j ≤ n then sqrtf (out0 (2 * j) * out0 (2 * j) + out0 (2 * j + 1) * out0 (2 * j + 1))
      else out0 j := by
  induction n with
  | zero =>
    intro j
    simp only [forLoop]
    rw [if_neg]
    omega
  | succ k ih =>
    intro j
    rw [forLoop_succ_last]
    simp only
    by_cases hj : j = 1 + k
    · subst hj
      rw [store_same, ih, ih, if_neg (by omega), if_neg (by omega), if_pos (by omega)]
    · rw [store_other _ _ _ _ hj, ih]
      by_cases h : 1 ≤ j ∧ j ≤ k
      · rw [if_pos h, if_pos (by omega)]
      · rw [if_neg h, if_neg (by omega)]

/-- What the in-place magnitude pass leaves in the buffer: every bin except
`NPT / 4` gets its own magnitude; bin `NPT / 4` is computed after position
`NPT / 2` has been overwritten with `|packed[1]|`. -/
theorem magnitudePass_spec (sqrtf : ℚ → ℚ) (packed : Nat → ℚ) :
    magnitudePass sqrtf packed 0 = |packed 0| ∧
    magnitudePass sqrtf packed (NPT / 2) = |packed 1| ∧
    (∀ k : Nat, 1 ≤ k → k < NPT / 2 → k ≠ NPT / 4 →
      magnitudePass sqrtf packed k =
        sqrtf (packed (2 * k) * packed (2 * k) + packed (2 * k + 1) * packed (2 * k + 1))) ∧
    magnitudePass sqrtf packed (NPT / 4) =
      sqrtf (|packed 1| * |packed 1| + packed (NPT / 2 + 1) * packed (NPT / 2 + 1)) := by
  unfold magnitudePass
  simp only [NPT, Nat.reduceMod, Nat.reduceDiv, Nat.reduceSub, if_true]
  refine ⟨?_, ?_, ?_, ?_⟩
  · rw [magnitude_loop, if_neg (by omega)]
    simp [store]
  · rw [magnitude_loop, if_neg (by omega)]
    simp [store]
  · intro k h1 h2 h3
    rw [magnitude_loop, if_pos (by omega)]
    have e1 : store (store packed 0 |packed 0|) 512 |store packed 0 |packed 0| 1| (2 * k) =
        packed (2 * k) := by
      rw [store_other _ _ _ _ (by omega), store_other _ _ _ _ (by omega)]
    have e2 : store (store packed 0 |packed 0|) 512 |store packed 0 |packed 0| 1| (2 * k + 1) =
        packed (2 * k + 1) := by
      rw [store_other _ _ _ _ (by omega), store_other _ _ _ _ (by omega)]
    rw [e1, e2]
  · rw [magnitude_loop, if_pos (by omega)]
    simp [store]

/-- C2 (the code at the failing input). With the packed output `packedBin256`
(bin 256 is `3 + 4i`, Nyquist coefficient 0), `FFT_Calc` leaves at position
256 the value `sqrtf 16`, computed from `|packed[1]| = 0` and the imaginary
part 4, whereas the magnitude of the bin's own pair is `sqrtf 25`. -/
theorem FFT_Calc_magnitude_bin256 (sqrtf : ℚ → ℚ) (samp : ℚ) (st : State) :
    (FFT_Calc sqrtf (fun _ => packedBin256) samp st).fft_outputbuf 256 = sqrtf 16 ∧
    sqrtf (packedBin256 (2 * 256) * packedBin256 (2 * 256) +
        packedBin256 (2 * 256 + 1) * packedBin256 (2 * 256 + 1)) = sqrtf 25 := by
  constructor
  · rw [FFT_Calc_fft_outputbuf]
    have h := (magnitudePass_spec sqrtf packedBin256).2.2.2
    simp only [NPT, Nat.reduceDiv, Nat.reduceAdd] at h
    rw [h]
    norm_num [packedBin256]
  · norm_num [packedBin256]

/-! ## The wave projection and its display range (C7, C8, C9) -/

theorem forLoop_store {α : Type} (f : Nat → α) (n : Nat) :
    ∀ (lo : Nat) (a : Nat → α) (j : Nat),
      forLoop (fun i (arr : Nat → α) => store arr i (f i)) lo n a j =
        if lo ≤ j ∧ j < lo + n then f j else a j := by
  induction n with
  | zero =>
    intro lo a j
    simp only [forLoop]
    rw [if_neg (by omega)]
  | succ k ih =>
    intro lo a j
    rw [forLoop_succ_last]
    by_cases hj : j = lo + k
    · subst hj
      rw [store_same, if_pos (by omega)]
    · rw [store_other _ _ _ _ hj, ih]
      by_cases h : lo ≤ j ∧ j < lo + k
      · rw [if_pos h, if_pos (by omega)]
      · rw [if_neg h, if_neg (by omega)]

/-- The array written by the wave fill loop. -/
theorem waveFill_spec (NONE : Int) (wave_points : Nat) (copyADValue : Nat → Nat)
    (wave_arr : Nat → Int) (j : Nat) :
    waveFill NONE wave_points copyADValue wave_arr j =
      if j < wave_points then
        (if j < 3 ∨ wave_points ≤ j + 3 then NONE else ((copyADValue j : Nat) : Int))
      else wave_arr j := by
  have hbody : (fun (i : Nat) (arr : Nat → Int) =>
      if (i : Int) < 3 ∨ (i : Int) ≥ (wave_points : Int) - 3 then store arr i NONE
      else store arr i ((copyADValue i : Nat) : Int)) =
      (fun (i : Nat) (arr : Nat → Int) => store arr i
        (if i < 3 ∨ wave_points ≤ i + 3 then NONE else ((copyADValue i : Nat) : Int))) := by
    funext i arr
    by_cases h : i < 3 ∨ wave_points ≤ i + 3
    · rw [if_pos h, if_pos (by omega)]
    · rw [if_neg h, if_neg (by omega)]
  unfold waveFill
  rw [hbody, forLoop_store]
  by_cases h : j < wave_points
  · rw [if_pos h, if_pos (by omega)]
  · rw [if_neg h, if_neg (by omega)]

/-- The invariant of the min/max scan: bounds on every scanned entry that is
not the sentinel, and either nothing was scanned in (the initial pair is
returned) or both results are attained. -/
theorem waveScan_loop (NONE : Int) (arr : Nat → Int) (N : Nat)
    (hr : ∀ i, 3 ≤ i → i < 3 + N → INT32_MIN ≤ arr i ∧ arr i ≤ INT32_MAX) :
    ∀ n, n ≤ N →
    (∀ i, 3 ≤ i → i < 3 + n → arr i ≠ NONE →
      (forLoop (waveScanStep NONE arr) 3 n (INT32_MAX, INT32_MIN)).1 ≤ arr i ∧
      arr i ≤ (forLoop (waveScanStep NONE arr) 3 n (INT32_MAX, INT32_MIN)).2) ∧
    (((∀ i, 3 ≤ i → i < 3 + n → arr i = NONE) ∧
        forLoop (waveScanStep NONE arr) 3 n (INT32_MAX, INT32_MIN) = (INT32_MAX, INT32_MIN)) ∨
      ((∃ i, 3 ≤ i ∧ i < 3 + n ∧ arr i ≠ NONE ∧
          arr i = (forLoop (waveScanStep NONE arr) 3 n (INT32_MAX, INT32_MIN)).1) ∧
        (∃ i, 3 ≤ i ∧ i < 3 + n ∧ arr i ≠ NONE ∧
          arr i = (forLoop (waveScanStep NONE arr) 3 n (INT32_MAX, INT32_MIN)).2))) := by
  intro n
  induction n with
  | zero =>
    intro _
    simp only [forLoop]
    refine ⟨?_, Or.inl ⟨?_, trivial⟩⟩
    · intro i h1 h2; omega
    · intro i h1 h2; omega
  | succ k ih =>
    intro hk
    rw [forLoop_succ_last]
    have ih2 := ih (by omega)
    generalize forLoop (waveScanStep NONE arr) 3 k (INT32_MAX, INT32_MIN) = r at ih2 ⊢
    obtain ⟨hA, hB⟩ := ih2
    have hrk := hr (3 + k) (by omega) (by omega)
    unfold waveScanStep
    by_cases hne : arr (3 + k) ≠ NONE
    · simp only [hne, if_true, ne_eq, not_false_eq_true]
      constructor
      · intro i h1 h2 h3
        by_cases hi : i = 3 + k
        · subst hi
          constructor <;> split_ifs <;> omega
        · have := hA i h1 (by omega) h3
          constructor <;> split_ifs <;> omega
      · right
        rcases hB with ⟨_, hB2⟩ | ⟨⟨i1, a1, a2, a3, a4⟩, ⟨i2, b1, b2, b3, b4⟩⟩
        · rw [hB2]
          simp only [INT32_MAX, INT32_MIN] at hrk ⊢
          constructor
          · refine ⟨3 + k, by omega, by omega, hne, ?_⟩
            split_ifs <;> omega
          · refine ⟨3 + k, by omega, by omega, hne, ?_⟩
            split_ifs <;> omega
        · constructor
          · by_cases hlt : arr (3 + k) < r.1
            · exact ⟨3 + k, by omega, by omega, hne, by rw [if_pos hlt]⟩
            · exact ⟨i1, a1, by omega, a3, by rw [if_neg hlt]; exact a4⟩
          · by_cases hgt : arr (3 + k) > r.2
            · exact ⟨3 + k, by omega, by omega, hne, by rw [if_pos hgt]⟩
            · exact ⟨i2, b1, by omega, b3, by rw [if_neg hgt]; exact b4⟩
    · have hne2 : ¬ (arr (3 + k) ≠ NONE) := hne
      simp only [hne2, if_false]
      constructor
      · intro i h1 h2 h3
        by_cases hi : i = 3 + k
        · subst hi
          exact absurd h3 hne
        · exact hA i h1 (by omega) h3
      · rcases hB with ⟨hB1, hB2⟩ | ⟨⟨i1, a1, a2, a3, a4⟩, ⟨i2, b1, b2, b3, b4⟩⟩
        · left
          refine ⟨?_, hB2⟩
          intro i h1 h2
          by_cases hi : i = 3 + k
          · subst hi
            exact not_not.mp hne
          · exact hB1 i h1 (by omega)
        · right
          exact ⟨⟨i1, a1, by omega, a3, a4⟩, ⟨i2, b1, by omega, b3, b4⟩⟩

/-- The scan of the filled wave array, for 16-bit samples and a sentinel that
is not a 16-bit value: the results bound every sample at the positions
`3 .. wave_points - 4`, and either there is no such position (the initial
pair is returned) or both are attained there. -/
theorem waveScan_fill (NONE : Int) (wave_points : Nat) (copyADValue : Nat → Nat)
    (wave_arr : Nat → Int) (hu16 : ∀ i, copyADValue i < 65536)
    (hNone : NONE < 0 ∨ 65535 < NONE) :
    (∀ i, 3 ≤ i → i + 4 ≤ wave_points →
      (waveScan NONE wave_points (waveFill NONE wave_points copyADValue wave_arr)).1 ≤
          ((copyADValue i : Nat) : Int) ∧
      ((copyADValue i : Nat) : Int) ≤
        (waveScan NONE wave_points (waveFill NONE wave_points copyADValue wave_arr)).2) ∧
    (((∀ i, 3 ≤ i → ¬ (i + 4 ≤ wave_points)) ∧
        waveScan NONE wave_points (waveFill NONE wave_points copyADValue wave_arr) =
          (INT32_MAX, INT32_MIN)) ∨
      ((∃ i, 3 ≤ i ∧ i + 4 ≤ wave_points ∧ ((copyADValue i : Nat) : Int) =
          (waveScan NONE wave_points (waveFill NONE wave_points copyADValue wave_arr)).1) ∧
        (∃ i, 3 ≤ i ∧ i + 4 ≤ wave_points ∧ ((copyADValue i : Nat) : Int) =
          (waveScan NONE wave_points (waveFill NONE wave_points copyADValue wave_arr)).2))) := by
  have hfill : ∀ i, 3 ≤ i → i < 3 + ((wave_points : Int) - 3 - 3).toNat →
      waveFill NONE wave_points copyADValue wave_arr i = ((copyADValue i : Nat) : Int) := by
    intro i h1 h2
    rw [waveFill_spec, if_pos (by omega), if_neg (by omega)]
  have hne : ∀ i, ((copyADValue i : Nat) : Int) ≠ NONE := by
    intro i
    have := hu16 i
    omega
  have hr : ∀ i, 3 ≤ i → i < 3 + ((wave_points : Int) - 3 - 3).toNat →
      INT32_MIN ≤ waveFill NONE wave_points copyADValue wave_arr i ∧
        waveFill NONE wave_points copyADValue wave_arr i ≤ INT32_MAX := by
    intro i h1 h2
    rw [hfill i h1 h2]
    have := hu16 i
    simp only [INT32_MIN, INT32_MAX]
    omega
  obtain ⟨hA, hB⟩ := waveScan_loop NONE (waveFill NONE wave_points copyADValue wave_arr)
    ((wave_points : Int) - 3 - 3).toNat hr ((wave_points : Int) - 3 - 3).toNat (le_refl _)
  unfold waveScan
  generalize forLoop (waveScanStep NONE (waveFill NONE wave_points copyADValue wave_arr)) 3
    ((wave_points : Int) - 3 - 3).toNat (INT32_MAX, INT32_MIN) = r at hA hB ⊢
  constructor
  · intro i h1 h2
    have h3 : i < 3 + ((wave_points : Int) - 3 - 3).toNat := by omega
    have := hA i h1 h3 (by rw [hfill i h1 h3]; exact hne i)
    rw [hfill i h1 h3] at this
    exact this
  · rcases hB with ⟨hB1, hB2⟩ | ⟨⟨i1, a1, a2, a3, a4⟩, ⟨i2, b1, b2, b3, b4⟩⟩
    · left
      refine ⟨?_, hB2⟩
      intro i h1 h2
      have h3 : i < 3 + ((wave_points : Int) - 3 - 3).toNat := by omega
      have := hB1 i h1 h3
      rw [hfill i h1 h3] at this
      exact hne i this
    · right
      rw [hfill i1 a1 a2] at a4
      rw [hfill i2 b1 b2] at b4
      exact ⟨⟨i1, a1, by omega, a4⟩, ⟨i2, b1, by omega, b4⟩⟩

theorem updateWave_wave_arr (NONE : Int) (st : State) :
    (updateWave NONE st).wave_arr = waveFill NONE st.wave_points st.copyADValue st.wave_arr := by
  simp only [updateWave]

theorem updateWave_wave_chart_low (NONE : Int) (st : State) :
    (updateWave NONE st).wave_chart_low =
      (waveRange
        (waveScan NONE st.wave_points
          (waveFill NONE st.wave_points st.copyADValue st.wave_arr)).1
        (waveScan NONE st.wave_points
          (waveFill NONE st.wave_points st.copyADValue st.wave_arr)).2).1 := by
  simp only [updateWave]

theorem updateWave_wave_chart_high (NONE : Int) (st : State) :
    (updateWave NONE st).wave_chart_high =
      (waveRange
        (waveScan NONE st.wave_points
          (waveFill NONE st.wave_points st.copyADValue st.wave_arr)).1
        (waveScan NONE st.wave_points
          (waveFill NONE st.wave_points st.copyADValue st.wave_arr)).2).2 := by
  simp only [updateWave]

theorem waveRange_fallback (mn mx : Int) (h : mn ≥ mx) : waveRange mn mx = (0, 4095) := by
  unfold waveRange
  rw [if_pos h]

theorem waveRange_padded (mn mx : Int) (h : mn < mx) :
    waveRange mn mx = (max 0 (mn - 150), min 4095 (mx + 100)) := by
  unfold waveRange
  rw [if_neg (by omega)]
  simp only
  congr 1
  · split_ifs <;> omega
  · split_ifs <;> omega

/-- C7. For every snapshot whose samples lie in `0..4095` and every wave point
count with `7 ≤ pointCount ≤ NPT`, the display range computed by the wave
part of `update_lvgl_charts` satisfies `0 ≤ low < high ≤ 4095` (whatever the
value of the sentinel). -/
theorem updateWave_range_bounds (NONE : Int) (st : State)
    (h12 : ∀ i, st.copyADValue i ≤ 4095)
    (_h7 : 7 ≤ st.wave_points) (_hN : st.wave_points ≤ NPT) :
    0 ≤ (updateWave NONE st).wave_chart_low ∧
      (updateWave NONE st).wave_chart_low < (updateWave NONE st).wave_chart_high ∧
      (updateWave NONE st).wave_chart_high ≤ 4095 := by
  have hfill : ∀ i, 3 ≤ i → i < 3 + ((st.wave_points : Int) - 3 - 3).toNat →
      waveFill NONE st.wave_points st.copyADValue st.wave_arr i =
        ((st.copyADValue i : Nat) : Int) := by
    intro i h1 h2
    rw [waveFill_spec, if_pos (by omega), if_neg (by omega)]
  have hr : ∀ i, 3 ≤ i → i < 3 + ((st.wave_points : Int) - 3 - 3).toNat →
      INT32_MIN ≤ waveFill NONE st.wave_points st.copyADValue st.wave_arr i ∧
        waveFill NONE st.wave_points st.copyADValue st.wave_arr i ≤ INT32_MAX := by
    intro i h1 h2
    rw [hfill i h1 h2]
    have := h12 i
    simp only [INT32_MIN, INT32_MAX]
    omega
  obtain ⟨_, hB⟩ := waveScan_loop NONE (waveFill NONE st.wave_points st.copyADValue st.wave_arr)
    ((st.wave_points : Int) - 3 - 3).toNat hr ((st.wave_points : Int) - 3 - 3).toNat (le_refl _)
  rw [updateWave_wave_chart_low, updateWave_wave_chart_high]
  unfold waveScan
  generalize forLoop (waveScanStep NONE (waveFill NONE st.wave_points st.copyADValue st.wave_arr))
    3 ((st.wave_points : Int) - 3 - 3).toNat (INT32_MAX, INT32_MIN) = r at hB ⊢
  by_cases hge : r.1 ≥ r.2
  · rw [waveRange_fallback _ _ hge]
    norm_num
  · rw [waveRange_padded _ _ (by omega)]
    rcases hB with ⟨_, hB2⟩ | ⟨⟨i1, a1, a2, _, a4⟩, ⟨i2, b1, b2, _, b4⟩⟩
    · rw [hB2] at hge
      simp [INT32_MAX, INT32_MIN] at hge
    · rw [hfill i1 a1 a2] at a4
      rw [hfill i2 b1 b2] at b4
      have c1 := h12 i1
      have c2 := h12 i2
      simp only
      omega

/-- Witness of C7: the initial state (all samples 0, 250 wave points) with the
sentinel `INT32_MAX`. -/
theorem updateWave_range_bounds_witness :
    0 ≤ (updateWave INT32_MAX initState).wave_chart_low ∧
      (updateWave INT32_MAX initState).wave_chart_low <
        (updateWave INT32_MAX initState).wave_chart_high ∧
      (updateWave INT32_MAX initState).wave_chart_high ≤ 4095 :=
  updateWave_range_bounds INT32_MAX initState
    (fun _ => by simp [initState]) (by simp [initState]) (by simp [initState, NPT])

/-- The display range of the wave part in terms of the spec-side minimum and
maximum, for 16-bit samples and a sentinel that is not a 16-bit value. -/
theorem updateWave_range_spec (NONE : Int) (st : State)
    (hu16 : ∀ i, st.copyADValue i < 65536) (hNone : NONE < 0 ∨ 65535 < NONE) :
    ((∀ i, 3 ≤ i → ¬ (i + 4 ≤ st.wave_points)) →
      (updateWave NONE st).wave_chart_low = 0 ∧ (updateWave NONE st).wave_chart_high = 4095) ∧
    (∀ m M : Int, IsWaveMin st.wave_points st.copyADValue m →
      IsWaveMax st.wave_points st.copyADValue M →
      (m ≥ M →
        (updateWave NONE st).wave_chart_low = 0 ∧ (updateWave NONE st).wave_chart_high = 4095) ∧
      (m < M →
        (updateWave NONE st).wave_chart_low = max 0 (m - 150) ∧
        (updateWave NONE st).wave_chart_high = min 4095 (M + 100))) := by
  obtain ⟨hA, hB⟩ := waveScan_fill NONE st.wave_points st.copyADValue st.wave_arr hu16 hNone
  rw [updateWave_wave_chart_low, updateWave_wave_chart_high]
  generalize waveScan NONE st.wave_points
    (waveFill NONE st.wave_points st.copyADValue st.wave_arr) = r at hA hB ⊢
  constructor
  · intro hempty
    rcases hB with ⟨_, hB2⟩ | ⟨⟨i1, a1, a2, _⟩, _⟩
    · rw [hB2, waveRange_fallback _ _ (by simp [INT32_MAX, INT32_MIN])]
      exact ⟨rfl, rfl⟩
    · exact absurd a2 (hempty i1 a1)
  · intro m M hm hM
    obtain ⟨⟨im, m1, m2, m3⟩, m4⟩ := hm
    obtain ⟨⟨iM, M1, M2, M3⟩, M4⟩ := hM
    have e : r.1 = m ∧ r.2 = M := by
      rcases hB with ⟨hB1, _⟩ | ⟨⟨i1, a1, a2, a4⟩, ⟨i2, b1, b2, b4⟩⟩
      · exact absurd m2 (hB1 im m1)
      · have u1 := hA im m1 m2
        have u2 := hA iM M1 M2
        have u3 := m4 i1 a1 a2
        have u4 := M4 i2 b1 b2
        constructor <;> omega
    rw [e.1, e.2]
    constructor
    · intro h
      rw [waveRange_fallback _ _ h]
      exact ⟨rfl, rfl⟩
    · intro h
      rw [waveRange_padded _ _ h]
      exact ⟨rfl, rfl⟩

/-- C8. For every snapshot of 12-bit samples (`0..4095`, what the
right-aligned 12-bit ADC delivers) and every wave point count, with min and
max taken over the positions `3..pointCount-4`: if there is no such position
or `min ≥ max`, the display range is exactly `[0, 4095]` (in particular for
every `pointCount < 6` and for a constant waveform); otherwise `low` is
`min - 150` clamped to `[0, 4095]` and `high` is `max + 100` clamped to
`[0, 4095]`. -/
theorem updateWave_displayRange (NONE : Int) (st : State)
    (h12 : ∀ i, st.copyADValue i ≤ 4095) (hNone : NONE < 0 ∨ 65535 < NONE) :
    ((∀ i, 3 ≤ i → ¬ (i + 4 ≤ st.wave_points)) →
      (updateWave NONE st).wave_chart_low = 0 ∧ (updateWave NONE st).wave_chart_high = 4095) ∧
    (st.wave_points < 6 →
      (updateWave NONE st).wave_chart_low = 0 ∧ (updateWave NONE st).wave_chart_high = 4095) ∧
    (∀ m M : Int, IsWaveMin st.wave_points st.copyADValue m →
      IsWaveMax st.wave_points st.copyADValue M →
      (m ≥ M →
        (updateWave NONE st).wave_chart_low = 0 ∧ (updateWave NONE st).wave_chart_high = 4095) ∧
      (m < M →
        (updateWave NONE st).wave_chart_low = clampRaw (m - 150) ∧
        (updateWave NONE st).wave_chart_high = clampRaw (M + 100))) := by
  have hu16 : ∀ i, st.copyADValue i < 65536 := fun i => lt_of_le_of_lt (h12 i) (by norm_num)
  obtain ⟨h1, h2⟩ := updateWave_range_spec NONE st hu16 hNone
  refine ⟨h1, ?_, ?_⟩
  · intro h6
    apply h1
    intro i hi
    omega
  · intro m M hm hM
    obtain ⟨g1, g2⟩ := h2 m M hm hM
    refine ⟨g1, ?_⟩
    intro hlt
    obtain ⟨e1, e2⟩ := g2 hlt
    obtain ⟨⟨im, _, _, m3⟩, _⟩ := hm
    obtain ⟨⟨iM, _, _, M3⟩, _⟩ := hM
    have c1 := h12 im
    have c2 := h12 iM
    rw [e1, e2]
    unfold clampRaw
    constructor
    · rw [min_eq_left (by omega)]
    · rw [max_eq_right (by omega), min_comm]

/-- Witness of C8: 8 wave points, the samples 1000 and 3000, and the sentinel
`INT32_MAX`; the display range is `[850, 3100]`. -/
theorem updateWave_displayRange_witness :
    (∀ i, ({ initState with wave_points := 8, copyADValue := snapshotTwoLevel } :
      State).copyADValue i ≤ 4095) ∧
    (INT32_MAX < 0 ∨ 65535 < INT32_MAX) ∧
    IsWaveMin 8 snapshotTwoLevel 1000 ∧ IsWaveMax 8 snapshotTwoLevel 3000 ∧
    (updateWave INT32_MAX
      { initState with wave_points := 8, copyADValue := snapshotTwoLevel }).wave_chart_low
        = clampRaw (1000 - 150) ∧
    (updateWave INT32_MAX
      { initState with wave_points := 8, copyADValue := snapshotTwoLevel }).wave_chart_high
        = clampRaw (3000 + 100) ∧
    clampRaw (1000 - 150) = 850 ∧ clampRaw (3000 + 100) = 3100 := by
  have hu : ∀ i, snapshotTwoLevel i ≤ 4095 := by
    intro i
    unfold snapshotTwoLevel
    split_ifs <;> norm_num
  have hmin : IsWaveMin 8 snapshotTwoLevel 1000 := by
    refine ⟨⟨3, by omega, by omega, by simp [snapshotTwoLevel]⟩, ?_⟩
    intro i _ _
    unfold snapshotTwoLevel
    split_ifs <;> norm_num
  have hmax : IsWaveMax 8 snapshotTwoLevel 3000 := by
    refine ⟨⟨4, by omega, by omega, by simp [snapshotTwoLevel]⟩, ?_⟩
    intro i _ _
    unfold snapshotTwoLevel
    split_ifs <;> norm_num
  have h := ((updateWave_displayRange INT32_MAX
    { initState with wave_points := 8, copyADValue := snapshotTwoLevel } hu
    (Or.inr (by decide))).2.2 1000 3000 hmin hmax).2 (by norm_num)
  exact ⟨hu, Or.inr (by decide), hmin, hmax, h.1, h.2, by decide, by decide⟩

/-- C9. For every snapshot of 16-bit samples and every wave point count with
`6 ≤ pointCount ≤ NPT`, the wave projection writes the gap sentinel at
position `i < pointCount` exactly when `i < 3` or `i ≥ pointCount - 3`, and
at every other position writes `snapshot[i]` unchanged, which is never equal
to the sentinel. -/
theorem updateWave_sentinels (NONE : Int) (st : State)
    (hu16 : ∀ i, st.copyADValue i < 65536) (hNone : NONE < 0 ∨ 65535 < NONE)
    (_h6 : 6 ≤ st.wave_points) (_hN : st.wave_points ≤ NPT) :
    ∀ i : Nat, i < st.wave_points →
      ((updateWave NONE st).wave_arr i = NONE ↔
        ((i : Int) < 3 ∨ (i : Int) ≥ (st.wave_points : Int) - 3)) ∧
      (¬ ((i : Int) < 3 ∨ (i : Int) ≥ (st.wave_points : Int) - 3) →
        (updateWave NONE st).wave_arr i = ((st.copyADValue i : Nat) : Int) ∧
        ((st.copyADValue i : Nat) : Int) ≠ NONE) := by
  intro i hi
  have hne : ((st.copyADValue i : Nat) : Int) ≠ NONE := by
    have := hu16 i
    omega
  rw [updateWave_wave_arr, waveFill_spec, if_pos hi]
  by_cases h : i < 3 ∨ st.wave_points ≤ i + 3
  · rw [if_pos h]
    have h2 : (i : Int) < 3 ∨ (i : Int) ≥ (st.wave_points : Int) - 3 := by omega
    exact ⟨⟨fun _ => h2, fun _ => rfl⟩, fun hc => absurd h2 hc⟩
  · rw [if_neg h]
    have h2 : ¬ ((i : Int) < 3 ∨ (i : Int) ≥ (st.wave_points : Int) - 3) := by omega
    exact ⟨⟨fun hc => absurd hc hne, fun hc => absurd hc h2⟩, fun _ => ⟨rfl, hne⟩⟩

/-- Witness of C9: the initial state (250 wave points) with the sentinel
`INT32_MAX`. -/
theorem updateWave_sentinels_witness :
    6 ≤ initState.wave_points ∧ initState.wave_points ≤ NPT ∧
    ∀ i : Nat, i < initState.wave_points →
      ((updateWave INT32_MAX initState).wave_arr i = INT32_MAX ↔
        ((i : Int) < 3 ∨ (i : Int) ≥ (initState.wave_points : Int) - 3)) ∧
      (¬ ((i : Int) < 3 ∨ (i : Int) ≥ (initState.wave_points : Int) - 3) →
        (updateWave INT32_MAX initState).wave_arr i = ((initState.copyADValue i : Nat) : Int) ∧
        ((initState.copyADValue i : Nat) : Int) ≠ INT32_MAX) :=
  ⟨by simp [initState], by simp [initState, NPT],
    updateWave_sentinels INT32_MAX initState (fun _ => by simp [initState])
      (Or.inr (by decide)) (by simp [initState]) (by simp [initState, NPT])⟩

/-! ## The spectrum projection (C10) -/

theorem store_store {α : Type} (a : Nat → α) (i : Nat) (x y : α) :
    store (store a i x) i y = store a i y := by
  funext j
  unfold store
  split_ifs <;> rfl

theorem realBins_eq (bs be : Int) (h1 : bs ≤ be) (h2 : be - bs < 65535) :
    ((realBins bs be : Nat) : Int) = be - bs + 1 := by
  unfold realBins
  simp only
  split_ifs <;> omega

theorem fftStep_eq_specStep (bs be : Int) (pc : Nat) (h1 : bs ≤ be) (h2 : be - bs < 65535) :
    ((fftStep bs be pc : Nat) : Int) = specStep bs be pc := by
  have hR := realBins_eq bs be h1 h2
  unfold fftStep specStep specRealBins
  simp only
  rw [max_eq_right (by omega : (1 : Int) ≤ be - bs + 1), ← hR, ← Int.natCast_div]
  generalize realBins bs be / pc = q
  split_ifs with h
  · rw [max_eq_left (by omega)]
    rfl
  · rw [max_eq_right (by omega)]

theorem fftStep_mul_le (bs be : Int) (pc i : Nat) (hi : i < pc) :
    i * fftStep bs be pc ≤ max pc (realBins bs be) := by
  unfold fftStep
  simp only
  split_ifs with h
  · rw [Nat.mul_one]
    exact le_trans (le_of_lt hi) (le_max_left _ _)
  · calc i * (realBins bs be / pc) ≤ pc * (realBins bs be / pc) :=
          Nat.mul_le_mul_right _ (le_of_lt hi)
      _ ≤ realBins bs be := Nat.mul_div_le _ _
      _ ≤ max pc (realBins bs be) := le_max_right _ _

theorem binIndex_eq (bs be : Int) (step i : Nat) (h0 : 0 ≤ bs) (h1 : bs ≤ be)
    (h2 : be < 65536) (hb : bs + (i : Int) * (step : Int) < 65536) :
    binIndex bs be step i = (min be (bs + (i : Int) * (step : Int))).toNat := by
  unfold binIndex
  have hnn : (0 : Int) ≤ (i : Int) * (step : Int) := by positivity
  generalize (i : Int) * (step : Int) = t at hb hnn ⊢
  simp only
  split_ifs with h
  · rw [min_eq_left (by omega)]
    congr 1
    omega
  · rw [min_eq_right (by omega)]
    congr 1
    omega

/-- The array written by `update_fft_chart`. -/
theorem update_fft_chart_spec (NONE : Int) (st : State) (j : Nat) :
    (update_fft_chart NONE st).fft_arr j =
      if j < st.fft_points then
        (if j < 3 ∨ st.fft_points ≤ j + 3 then NONE
        else truncToInt
          (if roundF32 (st.fft_outputbuf
                (binIndex st.s_binStart st.s_binEnd
                  (fftStep st.s_binStart st.s_binEnd st.fft_points) j) * scaleFactor) > 255
            then 255
            else roundF32 (st.fft_outputbuf
                (binIndex st.s_binStart st.s_binEnd
                  (fftStep st.s_binStart st.s_binEnd st.fft_points) j) * scaleFactor)))
      else st.fft_arr j := by
  have hbody : (fun (i : Nat) (arr : Nat → Int) =>
        let arr := store arr i (0 : Int)
        if (i : Int) < 3 ∨ (i : Int) ≥ (st.fft_points : Int) - 3 then store arr i NONE
        else
          let bin_index : Nat := binIndex st.s_binStart st.s_binEnd
            (fftStep st.s_binStart st.s_binEnd st.fft_points) i
          let val_f : ℚ := roundF32 (st.fft_outputbuf bin_index * scaleFactor)
          let val_f : ℚ := if val_f > 255 then 255 else val_f
          store arr i (truncToInt val_f)) =
      (fun (i : Nat) (arr : Nat → Int) => store arr i
        (if i < 3 ∨ st.fft_points ≤ i + 3 then NONE
        else truncToInt
          (if roundF32 (st.fft_outputbuf
                (binIndex st.s_binStart st.s_binEnd
                  (fftStep st.s_binStart st.s_binEnd st.fft_points) i) * scaleFactor) > 255
            then 255
            else roundF32 (st.fft_outputbuf
                (binIndex st.s_binStart st.s_binEnd
                  (fftStep st.s_binStart st.s_binEnd st.fft_points) i) * scaleFactor)))) := by
    funext i arr
    simp only
    by_cases h : i < 3 ∨ st.fft_points ≤ i + 3
    · rw [if_pos h, if_pos (by omega), store_store]
    · rw [if_neg h, if_neg (by omega), store_store]
  simp only [update_fft_chart]
  rw [hbody, forLoop_store]
  by_cases h : j < st.fft_points
  · rw [if_pos h, if_pos (by omega)]
  · rw [if_neg h, if_neg (by omega)]

theorem scaleFactor_eq : scaleFactor = 10695475 / 2097152 := by
  unfold scaleFactor
  apply roundF32_eq_pos _ _ 2 10695475 <;> norm_num [abs_lt]

theorem floor_sub_floor_le_one (a b : ℚ) (h : |a - b| < 1) : |⌊a⌋ - ⌊b⌋| ≤ 1 := by
  rw [abs_lt] at h
  have a1 := Int.floor_le a
  have a2 := Int.lt_floor_add_one a
  have b1 := Int.floor_le b
  have b2 := Int.lt_floor_add_one b
  have u1 : ((⌊a⌋ : Int) : ℚ) < (⌊b⌋ : Int) + 2 := by linarith
  have u2 : ((⌊b⌋ : Int) : ℚ) < (⌊a⌋ : Int) + 2 := by linarith
  have v1 : ⌊a⌋ < ⌊b⌋ + 2 := by exact_mod_cast u1
  have v2 : ⌊b⌋ < ⌊a⌋ + 2 := by exact_mod_cast u2
  rw [abs_le]
  constructor <;> omega

/-- The single precision product with the gain, clamped at 255, is within 1
of the exact product with `255/50`, clamped at 255. -/
theorem gain_product_near (v : ℚ) (hv : 0 ≤ v) :
    |min (255 : ℚ) (roundF32 (v * scaleFactor)) - min (255 : ℚ) (v * (255 / 50))| < 1 := by
  rw [scaleFactor_eq]
  have hp0 : 0 ≤ v * (10695475 / 2097152 : ℚ) := by positivity
  have hle := roundF32_le _ hp0
  have hge := roundF32_ge _ hp0
  have hμ1 : (2 : ℚ) ^ (-150 : Int) ≤ 1 / 1000000000 := by norm_num
  have hμ0 : (0 : ℚ) < (2 : ℚ) ^ (-150 : Int) := by positivity
  generalize (2 : ℚ) ^ (-150 : Int) = μ at hle hge hμ1 hμ0
  generalize roundF32 (v * (10695475 / 2097152)) = P at hle hge
  by_cases hbig : 100 ≤ v
  · have h1 : (255 : ℚ) ≤ P := by
      norm_num at hge
      linarith
    have h2 : (255 : ℚ) ≤ v * (255 / 50) := by linarith
    rw [min_eq_left h1, min_eq_left h2]
    norm_num
  · have hclose : |P - v * (255 / 50)| < 1 := by
      rw [abs_lt]
      norm_num at hle hge
      constructor <;> linarith
    refine lt_of_le_of_lt (abs_min_sub_min_le_max _ _ _ _) ?_
    rw [sub_self, abs_zero]
    exact max_lt (by norm_num) hclose

/-- Counterexample to C10 as stated: with the magnitude `918789 / 32768` the
single precision product with `255.0f / 50.0f` rounds to 143, which
`update_fft_chart` stores at interior position 3, while the integer part of
`magnitude * 255 / 50 = 142.99999…` is 142. -/
theorem update_fft_chart_projection_counterexample :
    (∀ k, 0 ≤ flatSpectrumState.fft_outputbuf k) ∧
    (update_fft_chart INT32_MAX flatSpectrumState).fft_arr 3 = 143 ∧
    specSample flatSpectrumState.fft_outputbuf flatSpectrumState.s_binStart
      flatSpectrumState.s_binEnd flatSpectrumState.fft_points 3 = 142 := by
  refine ⟨?_, ?_, ?_⟩
  · intro k
    show (0 : ℚ) ≤ 918789 / 32768
    norm_num
  · rw [update_fft_chart_spec, if_pos (by decide), if_neg (by decide)]
    show truncToInt (if roundF32 (918789 / 32768 * scaleFactor) > 255 then 255
      else roundF32 (918789 / 32768 * scaleFactor)) = 143
    have h : roundF32 (918789 / 32768 * scaleFactor) = 143 := by
      rw [scaleFactor_eq]
      apply roundF32_eq_pos _ _ 7 9371648 <;> norm_num [abs_lt]
    rw [h, if_neg (by norm_num)]
    norm_num [truncToInt]
  · unfold specSample
    show ⌊min (255 : ℚ) (918789 / 32768 * (255 / 50))⌋ = 142
    rw [Int.floor_eq_iff]
    norm_num

/-- C10 (amended). For every non-negative magnitude spectrum, every bin window
with `0 ≤ binStart ≤ binEnd ≤ NPT/2` and every spectrum point count with
`6 ≤ pointCount ≤ NPT`, `update_fft_chart` writes the gap sentinel at the
first 3 and last 3 positions and, at every interior position `i`, the integer
part of `min(255, magnitude[min(binEnd, binStart + i*step)] ⊗ gain)`, where
`⊗` is the single precision product and `gain = 255.0f / 50.0f`, with
`realBins = max(1, binEnd-binStart+1)` and `step = max(1, realBins / pointCount)`;
this is within 1 of the integer part of the exact
`min(255, magnitude[...] * 255/50)`; every interior value lies in `0..255`;
and `realBins = 5`, `pointCount = 206` gives `step = 1`. -/
theorem update_fft_chart_projection (NONE : Int) (st : State)
    (hmag : ∀ k, k ≤ NPT / 2 → 0 ≤ st.fft_outputbuf k)
    (h0 : 0 ≤ st.s_binStart) (h1 : st.s_binStart ≤ st.s_binEnd)
    (h2 : st.s_binEnd ≤ ((NPT / 2 : Nat) : Int))
    (_h6 : 6 ≤ st.fft_points) (hN : st.fft_points ≤ NPT) :
    (∀ i : Nat, i < st.fft_points →
      ((i < 3 ∨ st.fft_points - 3 ≤ i) → (update_fft_chart NONE st).fft_arr i = NONE) ∧
      (¬ (i < 3 ∨ st.fft_points - 3 ≤ i) →
        (update_fft_chart NONE st).fft_arr i =
          specSampleF32 st.fft_outputbuf st.s_binStart st.s_binEnd st.fft_points i ∧
        |(update_fft_chart NONE st).fft_arr i -
          specSample st.fft_outputbuf st.s_binStart st.s_binEnd st.fft_points i| ≤ 1 ∧
        0 ≤ (update_fft_chart NONE st).fft_arr i ∧
        (update_fft_chart NONE st).fft_arr i ≤ 255)) ∧
    (specRealBins st.s_binStart st.s_binEnd = 5 →
      specStep st.s_binStart st.s_binEnd 206 = 1 ∧
      fftStep st.s_binStart st.s_binEnd 206 = 1) := by
  simp only [NPT, Nat.reduceDiv, Nat.cast_ofNat] at hmag h2 hN
  have hstep : ∀ pc : Nat, ((fftStep st.s_binStart st.s_binEnd pc : Nat) : Int) =
      specStep st.s_binStart st.s_binEnd pc :=
    fun pc => fftStep_eq_specStep st.s_binStart st.s_binEnd pc h1 (by omega)
  have hR := realBins_eq st.s_binStart st.s_binEnd h1 (by omega)
  constructor
  · intro i hi
    rw [update_fft_chart_spec, if_pos hi]
    constructor
    · intro h
      rw [if_pos (by omega)]
    · intro h
      rw [if_neg (by omega)]
      have hmul := fftStep_mul_le st.s_binStart st.s_binEnd st.fft_points i hi
      have hmul2 : (i : Int) * ((fftStep st.s_binStart st.s_binEnd st.fft_points : Nat) : Int)
          ≤ 1024 := by
        have : i * fftStep st.s_binStart st.s_binEnd st.fft_points ≤ 1024 := by
          apply le_trans hmul
          apply max_le hN
          omega
        exact_mod_cast this
      have hidx := binIndex_eq st.s_binStart st.s_binEnd
        (fftStep st.s_binStart st.s_binEnd st.fft_points) i h0 h1 (by omega) (by omega)
      rw [hstep] at hidx hmul2
      rw [hidx]
      have hk : (min st.s_binEnd
          (st.s_binStart + (i : Int) * specStep st.s_binStart st.s_binEnd st.fft_points)).toNat
            ≤ 512 := by
        have := min_le_left st.s_binEnd
          (st.s_binStart + (i : Int) * specStep st.s_binStart st.s_binEnd st.fft_points)
        omega
      have hv := hmag _ hk
      unfold specSampleF32 specSample
      generalize st.fft_outputbuf (min st.s_binEnd
          (st.s_binStart + (i : Int) * specStep st.s_binStart st.s_binEnd st.fft_points)).toNat
            = v at hv ⊢
      have hnear := gain_product_near v hv
      have hP0 : 0 ≤ roundF32 (v * scaleFactor) := by
        apply roundF32_nonneg
        rw [scaleFactor_eq]
        positivity
      generalize roundF32 (v * scaleFactor) = P at hnear hP0 ⊢
      have hval : (if P > 255 then (255 : ℚ) else P) = min 255 P := by
        split_ifs with hc
        · rw [min_eq_left (le_of_lt hc)]
        · rw [min_eq_right (not_lt.mp hc)]
      rw [hval]
      have hpos : (0 : ℚ) ≤ min 255 P := le_min (by norm_num) hP0
      rw [truncToInt_of_nonneg _ hpos]
      refine ⟨rfl, floor_sub_floor_le_one _ _ hnear, Int.floor_nonneg.mpr hpos, ?_⟩
      have hlt : ⌊min (255 : ℚ) P⌋ < 256 := by
        rw [Int.floor_lt]
        exact lt_of_le_of_lt (min_le_left _ _) (by norm_num)
      omega
  · intro h5
    have e1 : specStep st.s_binStart st.s_binEnd 206 = 1 := by
      unfold specStep
      rw [h5]
      decide
    refine ⟨e1, ?_⟩
    have := hstep 206
    rw [e1] at this
    exact_mod_cast this

/-- Witness of C10 (amended): the constant spectrum `918789 / 32768`, the
window `[128, 333]`, 206 points and the sentinel `INT32_MAX`, at the interior
position 3, where the stored value is 143. -/
theorem update_fft_chart_projection_witness :
    (update_fft_chart INT32_MAX flatSpectrumState).fft_arr 3 =
      specSampleF32 flatSpectrumState.fft_outputbuf flatSpectrumState.s_binStart
        flatSpectrumState.s_binEnd flatSpectrumState.fft_points 3 ∧
    0 ≤ (update_fft_chart INT32_MAX flatSpectrumState).fft_arr 3 ∧
    (update_fft_chart INT32_MAX flatSpectrumState).fft_arr 3 ≤ 255 := by
  have h := ((update_fft_chart_projection INT32_MAX flatSpectrumState
    (fun _ _ => by show (0 : ℚ) ≤ 918789 / 32768; norm_num)
    (by decide) (by decide) (by decide) (by decide) (by decide)).1 3 (by decide)).2
    (by decide)
  exact ⟨h.1, h.2.2.1, h.2.2.2⟩

/-! ## The round trip at a quarter of the sampling rate (C3) -/

theorem geom_sum_root (z : ℂ) (hz : z ^ 1024 = 1) :
    ∑ n ∈ Finset.range 1024, z ^ n = if z = 1 then 1024 else 0 := by
  by_cases h : z = 1
  · rw [if_pos h, h]
    simp
  · rw [if_neg h, geom_sum_eq h, hz]
    simp

theorem root_pow_sum (ζ : ℂ) (hζ : IsPrimitiveRoot ζ 1024) (m : Nat) :
    ∑ n ∈ Finset.range 1024, (ζ ^ m) ^ n = if 1024 ∣ m then 1024 else 0 := by
  have hz : (ζ ^ m) ^ 1024 = 1 := by
    rw [← pow_mul, mul_comm, pow_mul, hζ.pow_eq_one, one_pow]
  rw [geom_sum_root _ hz]
  by_cases h : 1024 ∣ m
  · rw [if_pos h, if_pos ((hζ.pow_eq_one_iff_dvd m).mpr h)]
  · rw [if_neg h, if_neg (fun hc => h ((hζ.pow_eq_one_iff_dvd m).mp hc))]

theorem root_half (ζ : ℂ) (hζ : IsPrimitiveRoot ζ 1024) : ζ ^ 512 = -1 := by
  have h1 : (ζ ^ 512) ^ 2 = 1 := by
    rw [← pow_mul]
    exact hζ.pow_eq_one
  have h2 : ζ ^ 512 ≠ 1 := by
    intro hc
    have := (hζ.pow_eq_one_iff_dvd 512).mp hc
    omega
  have h3 : (ζ ^ 512 - 1) * (ζ ^ 512 + 1) = 0 := by
    ring_nf
    rw [show ζ ^ 1024 = (ζ ^ 512) ^ 2 by rw [← pow_mul]] 
    rw [h1]
    ring
  rcases mul_eq_zero.mp h3 with h | h
  · exact absurd (sub_eq_zero.mp h) h2
  · exact eq_neg_of_add_eq_zero_left h

theorem normSample_eval (sample : Nat) (a b : ℚ)
    (h1 : roundF32 ((sample : ℚ) * (13841203 / 4194304)) = a)
    (h2 : roundF32 (a / 4095) = b) : normSample sample = b := by
  have hc : roundF32 (33 / 10) = 13841203 / 4194304 := by
    apply roundF32_eq_pos _ _ 1 13841203 <;> norm_num [abs_lt]
  unfold normSample
  rw [hc, h1, h2]

theorem normSample_2548 : normSample 2548 = 538269 / 262144 := by
  apply normSample_eval 2548 (8610201 / 1024) (538269 / 262144)
  · apply roundF32_eq_pos _ _ 13 8610201 <;> norm_num [abs_lt]
  · apply roundF32_eq_pos _ _ 1 8612304 <;> norm_num [abs_lt]

theorem normSample_2048 : normSample 2048 = 13844583 / 8388608 := by
  apply normSample_eval 2048 (13841203 / 2048) (13844583 / 8388608)
  · apply roundF32_eq_pos _ _ 12 13841203 <;> norm_num [abs_lt]
  · apply roundF32_eq_pos _ _ 0 13844583 <;> norm_num [abs_lt]

theorem normSample_1548 : normSample 1548 = 5232279 / 4194304 := by
  apply normSample_eval 1548 (10462003 / 2048) (5232279 / 4194304)
  · apply roundF32_eq_pos _ _ 12 10462003 <;> norm_num [abs_lt]
  · apply roundF32_eq_pos _ _ 0 10464558 <;> norm_num [abs_lt]

/-- The single precision normalised samples of `quarterWave` as
`v1 + d (w^n + w^(3n))` for a primitive fourth root `w`: the three values
satisfy `v0 + v2 = 2 v1` exactly. -/
theorem quarter_pattern (w : ℂ) (hw : w ^ 2 = -1) (n : Nat) :
    ((normSample (quarterWave n) : ℚ) : ℂ) =
      ((13844583 / 8388608 : ℚ) : ℂ) +
        ((3380025 / 16777216 : ℚ) : ℂ) * (w ^ n + (w ^ 3) ^ n) := by
  have hw4 : w ^ 4 = 1 := by
    rw [show w ^ 4 = (w ^ 2) ^ 2 by rw [← pow_mul], hw]
    norm_num
  have hw3 : w ^ 3 = -w := by
    rw [show w ^ 3 = w ^ 2 * w by ring, hw]
    ring
  have hn : n = 4 * (n / 4) + n % 4 := (Nat.div_add_mod n 4).symm
  have hr : n % 4 < 4 := Nat.mod_lt _ (by norm_num)
  have e1 : w ^ n = w ^ (n % 4) := by
    conv_lhs => rw [hn, pow_add, pow_mul, hw4, one_pow, one_mul]
  have e2 : (w ^ 3) ^ n = (w ^ 3) ^ (n % 4) := by
    have : (w ^ 3) ^ 4 = 1 := by
      rw [← pow_mul, show 3 * 4 = 4 * 3 by norm_num, pow_mul, hw4, one_pow]
    conv_lhs => rw [hn, pow_add, pow_mul, this, one_pow, one_mul]
  unfold quarterWave
  rw [e1, e2, hw3]
  generalize n % 4 = r at hr
  interval_cases r
  · rw [if_pos rfl, normSample_2548]
    push_cast
    norm_num
  · rw [if_neg (by norm_num), if_neg (by norm_num), normSample_2048]
    push_cast
    norm_num
  · rw [if_neg (by norm_num), if_pos rfl, normSample_1548]
    push_cast
    norm_num
    rw [hw]
    norm_num
  · rw [if_neg (by norm_num), if_neg (by norm_num), normSample_2048]
    push_cast
    norm_num
    ring

/-- The exact DFT of the normalised `quarterWave` samples: only the DC bin and
bin 256 are non-zero among the bins `0..512`. -/
theorem dft_quarterWave (x : List ℚ)
    (hx : ∀ n, n < 1024 → x.getD n 0 = normSample (quarterWave n))
    (k : Nat) (hk : k ≤ 512) :
    ∑ n ∈ Finset.range 1024, ((x.getD n 0 : ℚ) : ℂ) *
        Complex.exp (-(2 * (Real.pi : ℂ) * Complex.I * (k : ℂ) * (n : ℂ) / ((1024 : ℕ) : ℂ))) =
      (((if k = 0 then 13844583 / 8192
        else if k = 256 then 3380025 / 16384 else 0 : ℚ)) : ℂ) := by
  have hζ : IsPrimitiveRoot (Complex.exp (2 * Real.pi * Complex.I / ((1024 : ℕ) : ℂ)))⁻¹ 1024 :=
    (Complex.isPrimitiveRoot_exp 1024 (by norm_num)).inv
  generalize hζdef : (Complex.exp (2 * Real.pi * Complex.I / ((1024 : ℕ) : ℂ)))⁻¹ = ζ at hζ
  have hexp : ∀ n : Nat,
      Complex.exp (-(2 * (Real.pi : ℂ) * Complex.I * (k : ℂ) * (n : ℂ) / ((1024 : ℕ) : ℂ))) =
        (ζ ^ k) ^ n := by
    intro n
    rw [← hζdef, ← pow_mul, ← Complex.exp_neg, ← Complex.exp_nat_mul]
    congr 1
    push_cast
    ring
  have hw : (ζ ^ 256) ^ 2 = -1 := by
    rw [← pow_mul]
    exact root_half ζ hζ
  have hterm : ∀ n ∈ Finset.range 1024, ((x.getD n 0 : ℚ) : ℂ) *
        Complex.exp (-(2 * (Real.pi : ℂ) * Complex.I * (k : ℂ) * (n : ℂ) / ((1024 : ℕ) : ℂ))) =
      ((13844583 / 8388608 : ℚ) : ℂ) * (ζ ^ k) ^ n +
        (((3380025 / 16777216 : ℚ) : ℂ) * (ζ ^ (256 + k)) ^ n +
          ((3380025 / 16777216 : ℚ) : ℂ) * (ζ ^ (768 + k)) ^ n) := by
    intro n hn
    rw [hx n (Finset.mem_range.mp hn), hexp n, quarter_pattern (ζ ^ 256) hw n]
    have e3 : (ζ ^ 256) ^ 3 = ζ ^ 768 := by rw [← pow_mul]
    rw [e3, pow_add ζ 256 k, pow_add ζ 768 k, mul_pow, mul_pow]
    ring
  rw [Finset.sum_congr rfl hterm, Finset.sum_add_distrib, Finset.sum_add_distrib,
    ← Finset.mul_sum, ← Finset.mul_sum, ← Finset.mul_sum,
    root_pow_sum ζ hζ k, root_pow_sum ζ hζ (256 + k), root_pow_sum ζ hζ (768 + k)]
  have d2 : ¬ (1024 ∣ 256 + k) := by omega
  rw [if_neg d2]
  by_cases h0 : k = 0
  · subst h0
    rw [if_pos (by norm_num), if_neg (by omega), if_pos rfl]
    push_cast
    ring
  · rw [if_neg (by omega), if_neg h0]
    by_cases h256 : k = 256
    · subst h256
      rw [if_pos (by norm_num), if_pos rfl]
      push_cast
      ring
    · rw [if_neg (by omega), if_neg h256]
      push_cast
      ring

theorem fillInput_spec (copyADValue : Nat → Nat) (buf : Nat → ℚ) (n : Nat) (hn : n < NPT) :
    fillInput copyADValue buf n = normSample (copyADValue n) := by
  unfold fillInput
  rw [forLoop_store, if_pos (by omega)]

theorem getD_map_range (g : Nat → ℚ) (N n : Nat) (hn : n < N) :
    ((List.range N).map g).getD n 0 = g n := by
  rw [List.getD_eq_getElem _ _ (by simp [hn])]
  simp

theorem ratCast_parts (a b q : ℚ) (h : ((a : ℚ) : ℂ) + ((b : ℚ) : ℂ) * Complex.I = ((q : ℚ) : ℂ)) :
    a = q ∧ b = 0 := by
  have hre := congrArg Complex.re h
  have him := congrArg Complex.im h
  simp at hre him
  exact ⟨by exact_mod_cast hre, by exact_mod_cast him⟩

/-- The packed coefficients of any exact real FFT of the normalised
`quarterWave` samples. -/
theorem exactRfft_quarterWave (x : List ℚ) (packed : Nat → ℚ)
    (hx : ∀ n, n < 1024 → x.getD n 0 = normSample (quarterWave n))
    (h : IsExactRfft x packed) :
    packed 1 = 0 ∧
    (∀ k, 1 ≤ k → k < 512 → k ≠ 256 → packed (2 * k) = 0) ∧
    (∀ k, 1 ≤ k → k < 512 → packed (2 * k + 1) = 0) := by
  have key : ∀ k, k ≤ 512 →
      packedRe packed k = (if k = 0 then 13844583 / 8192
        else if k = 256 then 3380025 / 16384 else 0 : ℚ) ∧
      packedIm packed k = 0 := by
    intro k hk
    have h1 := h k (by simp only [NPT]; omega)
    simp only [NPT] at h1
    rw [dft_quarterWave x hx k hk] at h1
    exact ratCast_parts _ _ _ h1.symm
  refine ⟨?_, ?_, ?_⟩
  · have := (key 512 (le_refl _)).1
    simp [packedRe, NPT] at this
    exact this
  · intro k h1 h2 h3
    have := (key k (by omega)).1
    unfold packedRe at this
    simp only [NPT] at this
    rw [if_neg (by omega), if_neg (by omega), if_neg (by omega), if_neg h3] at this
    exact this
  · intro k h1 h2
    have := (key k (by omega)).2
    unfold packedIm at this
    simp only [NPT] at this
    rw [if_neg (by omega)] at this
    exact this

/-- The function `fun _ => packedQuarterWave` is an exact real FFT on the
normalised `quarterWave` samples. -/
theorem packedQuarterWave_exact (x : List ℚ)
    (hx : ∀ n, n < 1024 → x.getD n 0 = normSample (quarterWave n)) :
    IsExactRfft x packedQuarterWave := by
  intro k hk
  simp only [NPT] at hk ⊢
  rw [dft_quarterWave x hx k (by omega)]
  have him : packedIm packedQuarterWave k = 0 := by
    unfold packedIm packedQuarterWave
    simp only [NPT]
    by_cases hc : k = 0 ∨ k = 1024 / 2
    · rw [if_pos hc]
    · rw [if_neg hc, if_neg (by omega), if_neg (by omega)]
  have hre : packedRe packedQuarterWave k = (if k = 0 then 13844583 / 8192
        else if k = 256 then 3380025 / 16384 else 0 : ℚ) := by
    unfold packedRe packedQuarterWave
    simp only [NPT]
    by_cases h0 : k = 0
    · subst h0
      simp
    · by_cases h512 : k = 512
      · subst h512
        simp
      · by_cases h256 : k = 256
        · subst h256
          simp
        · rw [if_neg h0, if_neg (by omega), if_neg (by omega), if_neg (by omega), if_neg h0,
            if_neg h256]
  rw [him, hre]
  simp

/-- With a packed output that vanishes at position 1 and at the positions of
the bins 128..333 other than the real part of bin 256, every magnitude of the
window `[128, 333]` left by the magnitude pass is `sqrtf 0`, and the peak
search returns the first bin of the window. -/
theorem peak_of_flat_window (sqrtf : ℚ → ℚ) (packed : Nat → ℚ)
    (h1 : packed 1 = 0)
    (hre : ∀ k, 1 ≤ k → k < 512 → k ≠ 256 → packed (2 * k) = 0)
    (him : ∀ k, 1 ≤ k → k < 512 → packed (2 * k + 1) = 0) :
    (peakSearch (magnitudePass sqrtf packed) 128 333).2 = 128 := by
  obtain ⟨_, _, m3, m4⟩ := magnitudePass_spec sqrtf packed
  simp only [NPT, Nat.reduceDiv, Nat.reduceAdd] at m3 m4
  have hflat : ∀ k, 128 ≤ k → k ≤ 333 → magnitudePass sqrtf packed k = sqrtf 0 := by
    intro k ha hb
    by_cases hk : k = 256
    · subst hk
      rw [m4, h1]
      have := him 256 (by omega) (by omega)
      rw [show 2 * 256 + 1 = 513 by norm_num] at this
      rw [this]
      norm_num
    · rw [m3 k (by omega) (by omega) hk, hre k (by omega) (by omega) hk,
        him k (by omega) (by omega)]
      norm_num
  obtain ⟨⟨p1, p2⟩, _, _, p4⟩ := peakSearch_spec (magnitudePass sqrtf packed) 128 333
    (by norm_num) (by norm_num) (by simp [NPT])
  by_contra hne
  have hgt : 128 < (peakSearch (magnitudePass sqrtf packed) 128 333).2 := by omega
  have hlt := p4 128 (by norm_num) hgt
  rw [hflat 128 (le_refl _) (by norm_num),
    hflat (peakSearch (magnitudePass sqrtf packed) 128 333).2 (by omega) (by omega)] at hlt
  exact lt_irrefl _ hlt

/-- C3 (the code at the failing input). The snapshot `quarterWave` samples a
pure sinusoid of frequency `f0 = 500` Hz at 2000 Hz, inside the window
`[250, 650]`.  With the samples normalised in single precision as the code
does and the FFT exact on them, `FFT_Calc` publishes the peak frequency
250 Hz, which differs from `f0` by more than one bin width `2000 / NPT`. -/
theorem FFT_Calc_quarterWave (sqrtf : ℚ → ℚ) (rfft : List ℚ → Nat → ℚ) (st : State)
    (hsnap : ∀ n, n < NPT → st.copyADValue n = quarterWave n)
    (hlow : st.g_fft_low = 250) (hhigh : st.g_fft_high = 650)
    (hfft : IsExactRfft ((List.range NPT).map (fillInput st.copyADValue st.fft_inputbuf))
      (rfft ((List.range NPT).map (fillInput st.copyADValue st.fft_inputbuf)))) :
    (FFT_Calc sqrtf rfft 2000 st).fft_max_freq = 250 ∧
      (2000 : ℚ) / (NPT : ℚ) < |(250 : ℚ) - 500| := by
  have hx : ∀ n, n < 1024 →
      ((List.range NPT).map (fillInput st.copyADValue st.fft_inputbuf)).getD n 0 =
        normSample (quarterWave n) := by
    intro n hn
    rw [getD_map_range _ _ _ (by simp only [NPT]; exact hn),
      fillInput_spec _ _ _ (by simp only [NPT]; exact hn),
      hsnap n (by simp only [NPT]; exact hn)]
  obtain ⟨e1, e2, e3⟩ := exactRfft_quarterWave _ _ hx hfft
  have hw : binWindow 250 650 2000 = (128, 333) := binWindow_default
  have hpk : peakBinIndex (FFT_Calc sqrtf rfft 2000 st) = 128 := by
    unfold peakBinIndex
    rw [FFT_Calc_fft_outputbuf, FFT_Calc_s_binStart, FFT_Calc_s_binEnd, hlow, hhigh, hw]
    exact peak_of_flat_window sqrtf _ e1 e2 e3
  constructor
  · rw [FFT_Calc_fft_max_freq, hpk]
    norm_num [NPT]
  · norm_num [NPT]

/-- Witness of C3: the snapshot `quarterWave` with the default window and the
exact packed transform `packedQuarterWave`. -/
theorem FFT_Calc_quarterWave_witness :
    IsExactRfft
      ((List.range NPT).map (fillInput quarterWave initState.fft_inputbuf))
      packedQuarterWave ∧
    (FFT_Calc (fun x => x) (fun _ => packedQuarterWave) 2000
        { initState with copyADValue := quarterWave }).fft_max_freq = 250 ∧
    (2000 : ℚ) / (NPT : ℚ) < |(250 : ℚ) - 500| := by
  have hx : ∀ n, n < 1024 →
      ((List.range NPT).map (fillInput quarterWave initState.fft_inputbuf)).getD n 0 =
        normSample (quarterWave n) := by
    intro n hn
    rw [getD_map_range _ _ _ (by simp only [NPT]; exact hn),
      fillInput_spec _ _ _ (by simp only [NPT]; exact hn)]
  have hex := packedQuarterWave_exact _ hx
  exact ⟨hex, FFT_Calc_quarterWave (fun x => x) (fun _ => packedQuarterWave)
    { initState with copyADValue := quarterWave } (fun _ _ => rfl) rfl rfl hex⟩

/-! ## The ready flag after a presentation cycle (C11) -/

theorem updateWave_fft_ready (NONE : Int) (st : State) :
    (updateWave NONE st).fft_ready = st.fft_ready := by
  simp only [updateWave]

theorem updateWave_fft_hidden (NONE : Int) (st : State) :
    (updateWave NONE st).fft_hidden = st.fft_hidden := by
  simp only [updateWave]

/-- With the spectrum chart shown, one run of `update_lvgl_charts` leaves
`fft_ready` clear. -/
theorem update_lvgl_charts_shown (NONE : Int) (st : State) (h : st.fft_hidden = false) :
    (update_lvgl_charts NONE st).fft_ready = 0 := by
  unfold update_lvgl_charts
  by_cases hw : st.wave_hidden = true
  · simp only [hw, Bool.not_true, Bool.false_eq_true, if_false, h, Bool.not_false, and_true]
    by_cases hr : st.fft_ready = 0
    · simp [hr]
    · simp [hr]
  · simp only [Bool.not_eq_true] at hw
    simp only [hw, Bool.not_false, if_true, updateWave_fft_ready, updateWave_fft_hidden, h,
      and_true]
    by_cases hr : st.fft_ready = 0
    · simp [hr, updateWave_fft_ready]
    · simp [hr]

/-- With the spectrum chart hidden, one run of `update_lvgl_charts` leaves
`fft_ready` as it was. -/
theorem update_lvgl_charts_hidden (NONE : Int) (st : State) (h : st.fft_hidden = true) :
    (update_lvgl_charts NONE st).fft_ready = st.fft_ready := by
  unfold update_lvgl_charts
  by_cases hw : st.wave_hidden = true
  · simp [hw, h]
  · simp only [Bool.not_eq_true] at hw
    simp [hw, h, updateWave_fft_ready, updateWave_fft_hidden]

theorem FFT_Calc_fft_hidden (sqrtf : ℚ → ℚ) (rfft : List ℚ → Nat → ℚ) (samp : ℚ)
    (st : State) : (FFT_Calc sqrtf rfft samp st).fft_hidden = st.fft_hidden := by
  simp only [FFT_Calc]

/-- The mode selector establishes `DisplayFlags`. -/
theorem radio_event_handler_flags (index : Nat) (st : State) :
    DisplayFlags (radio_event_handler (some index) st) := by
  unfold radio_event_handler DisplayFlags
  simp only
  split_ifs with h0 h1
  · simp [h0]
  · simp [h1]
  · simp [h0, h1]

/-- Counterexample to C11 as stated: in Wave only mode (mode 1, selected from
the initial state) a capture completes and sets `fft_ready`; one run of
`update_lvgl_charts` then leaves `fft_ready = 1`. -/
theorem update_lvgl_charts_ready_counterexample :
    (FFT_Calc (fun x => x) (fun _ _ => 0) 2000
        (radio_event_handler (some 1) initState)).display_mode = 1 ∧
    (update_lvgl_charts INT32_MAX
      (FFT_Calc (fun x => x) (fun _ _ => 0) 2000
        (radio_event_handler (some 1) initState))).fft_ready = 1 := by
  constructor
  · simp only [FFT_Calc]
    rfl
  · rw [update_lvgl_charts_hidden, FFT_Calc_fft_ready]
    rw [FFT_Calc_fft_hidden]
    rfl

/-- C11 (amended). For every pipeline state whose hidden flags are those of
its display mode: in the modes FFT only and Both (every mode other than 1),
after one run of `update_lvgl_charts` the flag `fft_ready` is clear; in Wave
only mode (mode 1) the run leaves `fft_ready` unchanged. -/
theorem update_lvgl_charts_ready (NONE : Int) (st : State) (hflags : DisplayFlags st) :
    (st.display_mode ≠ 1 → (update_lvgl_charts NONE st).fft_ready = 0) ∧
    (st.display_mode = 1 → (update_lvgl_charts NONE st).fft_ready = st.fft_ready) := by
  obtain ⟨_, hf⟩ := hflags
  constructor
  · intro hm
    apply update_lvgl_charts_shown
    cases hh : st.fft_hidden with
    | false => rfl
    | true => exact absurd (hf.mp hh) hm
  · intro hm
    exact update_lvgl_charts_hidden NONE st (hf.mpr hm)

/-- Witness of C11 (amended): the mode FFT only selected from the initial
state, after a capture has set `fft_ready`. -/
theorem update_lvgl_charts_ready_witness :
    DisplayFlags (FFT_Calc (fun x => x) (fun _ _ => 0) 2000
      (radio_event_handler (some 0) initState)) ∧
    (FFT_Calc (fun x => x) (fun _ _ => 0) 2000
      (radio_event_handler (some 0) initState)).fft_ready = 1 ∧
    (update_lvgl_charts INT32_MAX (FFT_Calc (fun x => x) (fun _ _ => 0) 2000
      (radio_event_handler (some 0) initState))).fft_ready = 0 := by
  have hflags : DisplayFlags (FFT_Calc (fun x => x) (fun _ _ => 0) 2000
      (radio_event_handler (some 0) initState)) := by
    have h := radio_event_handler_flags 0 initState
    unfold DisplayFlags at h ⊢
    simp only [FFT_Calc]
    exact h
  have hmode : (FFT_Calc (fun x => x) (fun _ _ => 0) 2000
      (radio_event_handler (some 0) initState)).display_mode ≠ 1 := by
    simp only [FFT_Calc]
    decide
  exact ⟨hflags, FFT_Calc_fft_ready _ _ _ _,
    (update_lvgl_charts_ready INT32_MAX _ hflags).1 hmode⟩

/-! ## Latest value wins (C12) -/

theorem fillInput_list_congr (c1 c2 : Nat → Nat) (b1 b2 : Nat → ℚ)
    (h : ∀ i, i < NPT → c1 i = c2 i) :
    (List.range NPT).map (fillInput c1 b1) = (List.range NPT).map (fillInput c2 b2) := by
  apply List.map_congr_left
  intro n hn
  have hlt : n < NPT := List.mem_range.mp hn
  rw [fillInput_spec c1 b1 n hlt, fillInput_spec c2 b2 n hlt, h n hlt]

theorem CopyDataToWaveBuff_copy (st : State) (i : Nat) (hi : i < NPT) :
    (CopyDataToWaveBuff st).copyADValue i = st.ADValue i := by
  simp only [CopyDataToWaveBuff, if_pos hi]

theorem FFT_Calc_copyADValue (sqrtf : ℚ → ℚ) (rfft : List ℚ → Nat → ℚ) (samp : ℚ)
    (st : State) : (FFT_Calc sqrtf rfft samp st).copyADValue = st.copyADValue := by
  simp only [FFT_Calc]

/-- C12. Latest value wins: from any two prior states with the same raw
capture buffer and frequency window, and for the same sampling rate, the
capture-complete handler (`CopyDataToWaveBuff` then `FFT_Calc`) produces the
same snapshot (equal to the raw buffer), spectrum, bin window and peak, and
leaves `fft_ready` set. -/
theorem HAL_ADC_ConvCpltCallback_latest_wins (sqrtf : ℚ → ℚ) (rfft : List ℚ → Nat → ℚ)
    (Samples : ℚ) (st1 st2 : State)
    (hraw : ∀ i, i < NPT → st1.ADValue i = st2.ADValue i)
    (hlow : st1.g_fft_low = st2.g_fft_low) (hhigh : st1.g_fft_high = st2.g_fft_high) :
    (∀ i, i < NPT →
      (HAL_ADC_ConvCpltCallback sqrtf rfft true Samples st1).copyADValue i = st1.ADValue i ∧
      (HAL_ADC_ConvCpltCallback sqrtf rfft true Samples st2).copyADValue i = st1.ADValue i) ∧
    (HAL_ADC_ConvCpltCallback sqrtf rfft true Samples st1).fft_outputbuf =
      (HAL_ADC_ConvCpltCallback sqrtf rfft true Samples st2).fft_outputbuf ∧
    (HAL_ADC_ConvCpltCallback sqrtf rfft true Samples st1).s_binStart =
      (HAL_ADC_ConvCpltCallback sqrtf rfft true Samples st2).s_binStart ∧
    (HAL_ADC_ConvCpltCallback sqrtf rfft true Samples st1).s_binEnd =
      (HAL_ADC_ConvCpltCallback sqrtf rfft true Samples st2).s_binEnd ∧
    (HAL_ADC_ConvCpltCallback sqrtf rfft true Samples st1).fft_max_val =
      (HAL_ADC_ConvCpltCallback sqrtf rfft true Samples st2).fft_max_val ∧
    (HAL_ADC_ConvCpltCallback sqrtf rfft true Samples st1).fft_max_freq =
      (HAL_ADC_ConvCpltCallback sqrtf rfft true Samples st2).fft_max_freq ∧
    (HAL_ADC_ConvCpltCallback sqrtf rfft true Samples st1).fft_ready = 1 ∧
    (HAL_ADC_ConvCpltCallback sqrtf rfft true Samples st2).fft_ready = 1 := by
  have hcb : ∀ st : State, HAL_ADC_ConvCpltCallback sqrtf rfft true Samples st =
      FFT_Calc sqrtf rfft Samples (CopyDataToWaveBuff st) := by
    intro st
    simp only [HAL_ADC_ConvCpltCallback, if_true]
  have hg1 : ∀ st : State, (CopyDataToWaveBuff st).g_fft_low = st.g_fft_low := by
    intro st
    simp only [CopyDataToWaveBuff]
  have hg2 : ∀ st : State, (CopyDataToWaveBuff st).g_fft_high = st.g_fft_high := by
    intro st
    simp only [CopyDataToWaveBuff]
  have hlist : (List.range NPT).map (fillInput (CopyDataToWaveBuff st1).copyADValue
        (CopyDataToWaveBuff st1).fft_inputbuf) =
      (List.range NPT).map (fillInput (CopyDataToWaveBuff st2).copyADValue
        (CopyDataToWaveBuff st2).fft_inputbuf) := by
    apply fillInput_list_congr
    intro i hi
    rw [CopyDataToWaveBuff_copy st1 i hi, CopyDataToWaveBuff_copy st2 i hi, hraw i hi]
  have hbuf : (FFT_Calc sqrtf rfft Samples (CopyDataToWaveBuff st1)).fft_outputbuf =
      (FFT_Calc sqrtf rfft Samples (CopyDataToWaveBuff st2)).fft_outputbuf := by
    rw [FFT_Calc_fft_outputbuf, FFT_Calc_fft_outputbuf, hlist]
  have hbs : (FFT_Calc sqrtf rfft Samples (CopyDataToWaveBuff st1)).s_binStart =
      (FFT_Calc sqrtf rfft Samples (CopyDataToWaveBuff st2)).s_binStart := by
    rw [FFT_Calc_s_binStart, FFT_Calc_s_binStart, hg1, hg1, hg2, hg2, hlow, hhigh]
  have hbe : (FFT_Calc sqrtf rfft Samples (CopyDataToWaveBuff st1)).s_binEnd =
      (FFT_Calc sqrtf rfft Samples (CopyDataToWaveBuff st2)).s_binEnd := by
    rw [FFT_Calc_s_binEnd, FFT_Calc_s_binEnd, hg1, hg1, hg2, hg2, hlow, hhigh]
  rw [hcb st1, hcb st2]
  refine ⟨?_, hbuf, hbs, hbe, ?_, ?_, FFT_Calc_fft_ready _ _ _ _, FFT_Calc_fft_ready _ _ _ _⟩
  · intro i hi
    rw [FFT_Calc_copyADValue, FFT_Calc_copyADValue, CopyDataToWaveBuff_copy st1 i hi,
      CopyDataToWaveBuff_copy st2 i hi, hraw i hi]
    exact ⟨rfl, rfl⟩
  · rw [FFT_Calc_fft_max_val, FFT_Calc_fft_max_val, hbuf, hbs, hbe]
  · rw [FFT_Calc_fft_max_freq, FFT_Calc_fft_max_freq]
    unfold peakBinIndex
    rw [hbuf, hbs, hbe]

/-- Witness of C12: the initial (Idle) state and `staleReadyState`, which have
the same raw buffer and window, at 2000 Hz. -/
theorem HAL_ADC_ConvCpltCallback_latest_wins_witness :
    staleReadyState.fft_max_freq ≠ initState.fft_max_freq ∧
    (HAL_ADC_ConvCpltCallback (fun x => x) (fun _ _ => 0) true 2000 initState).fft_outputbuf =
      (HAL_ADC_ConvCpltCallback (fun x => x) (fun _ _ => 0) true 2000
        staleReadyState).fft_outputbuf ∧
    (HAL_ADC_ConvCpltCallback (fun x => x) (fun _ _ => 0) true 2000 initState).fft_max_freq =
      (HAL_ADC_ConvCpltCallback (fun x => x) (fun _ _ => 0) true 2000
        staleReadyState).fft_max_freq ∧
    (HAL_ADC_ConvCpltCallback (fun x => x) (fun _ _ => 0) true 2000
      staleReadyState).fft_ready = 1 := by
  have h := HAL_ADC_ConvCpltCallback_latest_wins (fun x => x) (fun _ _ => 0) 2000
    initState staleReadyState (fun _ _ => rfl) rfl rfl
  refine ⟨?_, h.2.1, h.2.2.2.2.2.1, h.2.2.2.2.2.2.2⟩
  simp [staleReadyState, initState]

/-! ## The point counts (C13) -/

/-- C13. The initial wave and spectrum point counts (250 and 206) and, for
every 16-bit signed slider value, the counts set by `slider_event_cb` satisfy
`50 ≤ wave_points ≤ 250` and `110 ≤ fft_points ≤ 206`; hence both lie in
`6..NPT` and the spectrum point count is never zero. -/
theorem slider_event_cb_point_counts (val : Int) (st : State)
    (_hval : -32768 ≤ val ∧ val ≤ 32767) :
    (initState.wave_points = 250 ∧ initState.fft_points = 206) ∧
    (50 ≤ (slider_event_cb val st).wave_points ∧ (slider_event_cb val st).wave_points ≤ 250 ∧
      110 ≤ (slider_event_cb val st).fft_points ∧ (slider_event_cb val st).fft_points ≤ 206) ∧
    (6 ≤ (slider_event_cb val st).wave_points ∧ (slider_event_cb val st).wave_points ≤ NPT ∧
      6 ≤ (slider_event_cb val st).fft_points ∧ (slider_event_cb val st).fft_points ≤ NPT ∧
      (slider_event_cb val st).fft_points ≠ 0) := by
  have hw : 50 ≤ (slider_event_cb val st).wave_points ∧
      (slider_event_cb val st).wave_points ≤ 250 := by
    simp only [slider_event_cb]
    generalize ((50 + Int.tdiv (200 * val) 100) % 65536).toNat = w
    split_ifs <;> omega
  have hf : 110 ≤ (slider_event_cb val st).fft_points ∧
      (slider_event_cb val st).fft_points ≤ 206 := by
    simp only [slider_event_cb]
    generalize ((110 + Int.tdiv (176 * val) 100) % 65536).toNat = f
    split_ifs <;> omega
  refine ⟨⟨rfl, rfl⟩, ⟨hw.1, hw.2, hf.1, hf.2⟩, ?_⟩
  simp only [NPT]
  omega

/-- Witness of C13: the slider value 100 from the initial state, and the
negative value -100, whose sum `50 + (-200)` wraps in the `uint16_t`. -/
theorem slider_event_cb_point_counts_witness :
    ((-32768 : Int) ≤ -100 ∧ (-100 : Int) ≤ 32767) ∧
    (slider_event_cb 100 initState).wave_points = 250 ∧
    (slider_event_cb 100 initState).fft_points = 206 ∧
    (50 ≤ (slider_event_cb (-100) initState).wave_points ∧
      (slider_event_cb (-100) initState).wave_points ≤ 250 ∧
      110 ≤ (slider_event_cb (-100) initState).fft_points ∧
      (slider_event_cb (-100) initState).fft_points ≤ 206) :=
  ⟨by decide, by decide, by decide,
    (slider_event_cb_point_counts (-100) initState (by decide)).2.1⟩

/-! ## The bins read by `update_fft_chart` (C14) -/

theorem binIndex_le (bs be : Int) (step i : Nat) (h0 : 0 ≤ be) (h2 : be < 65536) :
    ((binIndex bs be step i : Nat) : Int) ≤ be := by
  unfold binIndex
  simp only
  generalize bs + (i : Int) * (step : Int) = t
  split_ifs with h <;> omega

/-- C14. For every bin window with `0 ≤ binStart ≤ binEnd ≤ NPT/2` and every
16-bit spectrum point count `pointCount ≥ 1`: every index at which
`update_fft_chart` reads the magnitude array lies in `0..binEnd`, hence in
`0..NPT/2`, whether or not `binStart + i*step` wraps in the `uint16_t`
variable (the product `i*step` stays below `2^16`); the chart array therefore
does not depend on the spectrum outside `0..binEnd`; and the division
computing `step` is not by zero. -/
theorem update_fft_chart_reads (NONE : Int) (st : State)
    (h0 : 0 ≤ st.s_binStart) (h1 : st.s_binStart ≤ st.s_binEnd)
    (h2 : st.s_binEnd ≤ ((NPT / 2 : Nat) : Int))
    (hpc1 : 1 ≤ st.fft_points) (hpc16 : st.fft_points < 65536) :
    (∀ i : Nat, i < st.fft_points →
      ((binIndex st.s_binStart st.s_binEnd
          (fftStep st.s_binStart st.s_binEnd st.fft_points) i : Nat) : Int) ≤ st.s_binEnd ∧
      binIndex st.s_binStart st.s_binEnd
          (fftStep st.s_binStart st.s_binEnd st.fft_points) i ≤ NPT / 2 ∧
      i * fftStep st.s_binStart st.s_binEnd st.fft_points < 65536) ∧
    (∀ spectrum : Nat → ℚ,
      (∀ k : Nat, (k : Int) ≤ st.s_binEnd → spectrum k = st.fft_outputbuf k) →
      (update_fft_chart NONE { st with fft_outputbuf := spectrum }).fft_arr =
        (update_fft_chart NONE st).fft_arr) ∧
    fftStepChecked st.s_binStart st.s_binEnd st.fft_points =
      some (fftStep st.s_binStart st.s_binEnd st.fft_points) := by
  simp only [NPT, Nat.reduceDiv, Nat.cast_ofNat] at h2 ⊢
  have hidx : ∀ i : Nat, ((binIndex st.s_binStart st.s_binEnd
      (fftStep st.s_binStart st.s_binEnd st.fft_points) i : Nat) : Int) ≤ st.s_binEnd :=
    fun i => binIndex_le _ _ _ _ (by omega) (by omega)
  refine ⟨?_, ?_, ?_⟩
  · intro i hi
    have hi1 := hidx i
    refine ⟨hi1, by omega, ?_⟩
    have hmul := fftStep_mul_le st.s_binStart st.s_binEnd st.fft_points i hi
    have hR := realBins_eq st.s_binStart st.s_binEnd h1 (by omega)
    have : max st.fft_points (realBins st.s_binStart st.s_binEnd) < 65536 := by
      apply max_lt hpc16
      omega
    omega
  · intro spectrum hagree
    funext j
    rw [update_fft_chart_spec, update_fft_chart_spec]
    simp only
    rw [hagree _ (hidx j)]
  · unfold fftStepChecked
    rw [if_neg (by omega)]

/-- Witness of C14: the window `[512, 512]` with 65535 points; at `i = 65100`
the sum `512 + 65100` wraps to 76 in the `uint16_t`, and the bin read is 76. -/
theorem update_fft_chart_reads_witness :
    binIndex 512 512 (fftStep 512 512 65535) 65100 = 76 ∧
    ((binIndex ({ initState with s_binStart := 512, s_binEnd := 512, fft_points := 65535 }
        : State).s_binStart
      ({ initState with s_binStart := 512, s_binEnd := 512, fft_points := 65535 }
        : State).s_binEnd
      (fftStep ({ initState with s_binStart := 512, s_binEnd := 512, fft_points := 65535 }
          : State).s_binStart
        ({ initState with s_binStart := 512, s_binEnd := 512, fft_points := 65535 }
          : State).s_binEnd
        ({ initState with s_binStart := 512, s_binEnd := 512, fft_points := 65535 }
          : State).fft_points) 65100 : Nat) : Int) ≤
      ({ initState with s_binStart := 512, s_binEnd := 512, fft_points := 65535 }
        : State).s_binEnd :=
  ⟨by decide,
    ((update_fft_chart_reads INT32_MAX
      { initState with s_binStart := 512, s_binEnd := 512, fft_points := 65535 }
      (by decide) (by decide) (by decide) (by decide) (by decide)).1 65100 (by decide)).1⟩

end FftDisplay
